import Mathlib

/-!
Verification of the lazy-lnd adaptive fee control engine.

Shallow embedding of the Python sources under `autotune/`, `scripts/` and
`drivers/`.  Machine integers are modelled as `Int`, Python floats as `Rat`
(exact arithmetic; every concrete input used in a theorem is chosen so that
the branch decisions agree with IEEE-754 evaluation), Python `None` as
`Option`, and fallible paths as `Except`.  Python `//` is `Int.fdiv`
(floor division), `int(...)` on a non-integral value truncates toward zero,
and `round(...)` rounds half to even.
-/

namespace LazyLnd

/-- Python floor division `a // b` on integers. -/
def pyFloorDiv (a b : ℤ) : ℤ := Int.fdiv a b

/-- Python `int(q)` on an exact rational: truncation toward zero. -/
def pyTrunc (q : ℚ) : ℤ := if q < 0 then ⌈q⌉ else ⌊q⌋

/-- Python `round(q)` to an integer: round half to even. -/
def pyRound (q : ℚ) : ℤ :=
  let n : ℤ := ⌊q⌋
  let r : ℚ := q - n
  if r < 1/2 then n
  else if 1/2 < r then n + 1
  else if Even n then n else n + 1

/-- Python `round(q, 2)`: round half to even at two decimal digits. -/
def pyRound2 (q : ℚ) : ℚ := (pyRound (q * 100) : ℚ) / 100

/-- Python truthiness of an optional number followed by `or`:
`a or b` yields `b` when `a` is `None` or `0`, else the value of `a`. -/
def pyOrQ (a : Option ℚ) (b : ℚ) : ℚ :=
  match a with
  | some x => if x = 0 then b else x
  | none => b

/-- Python truthiness for `d.get(k) or default` on optional integers. -/
def pyOrZ (a : Option ℤ) (b : ℤ) : ℤ :=
  match a with
  | some x => if x = 0 then b else x
  | none => b

/-! ## Metrics aggregator: EMA update (autotune.process_channel_data)

From `autotune/autotune.py`, `process_channel_data` lines 462-491:
each horizon EMA is updated as `ema_h + alpha_h * (x - ema_h)` with the
24h outbound total `x`, and the blended EMA is the mean of the three
updated horizon EMAs.
-/

/-- One horizon EMA update step: `ema + alpha * (x - ema)`. -/
def emaStep (ema alpha x : ℚ) : ℚ := ema + alpha * (x - ema)

/-- Blended EMA: mean of the three horizon EMAs. -/
def blendedEma (e1 e5 e7 : ℚ) : ℚ := (e1 + e5 + e7) / 3

/-- Blended EMA after one update cycle with sample `x` and per-horizon
alphas `(a1, a5, a7)`, as computed by `process_channel_data`. -/
def emaUpdateBlended (e1 e5 e7 a1 a5 a7 x : ℚ) : ℚ :=
  blendedEma (emaStep e1 a1 x) (emaStep e5 a5 x) (emaStep e7 a7 x)

/-! ## Adaptive alpha selection (autotune.get_adaptive_alpha) -/

/-- The `[alpha]` policy section used by `get_adaptive_alpha`. -/
structure AlphaParams where
  role_flip_days : ℤ
  min_role_flips : ℕ
  zero_ema_trigger : ℤ
  weighted_1d : ℚ
  weighted_5d : ℚ
  weighted_7d : ℚ
  zero_ema_max_1d : ℚ
  zero_ema_max_5d : ℚ
  zero_ema_max_7d : ℚ
  zero_ema_1d_boost : ℚ
  zero_ema_5d_boost : ℚ
  zero_ema_7d_boost : ℚ
  fee_bump_streak_threshold : ℤ
  fee_bump_min_1d : ℚ
  fee_bump_min_5d : ℚ
  fee_bump_min_7d : ℚ
  fee_bump_decay_1d : ℚ
  fee_bump_decay_5d : ℚ
  fee_bump_decay_7d : ℚ
  balanced_1d : ℚ
  balanced_5d : ℚ
  balanced_7d : ℚ

/-- `autotune/autotune.py`, `get_adaptive_alpha`: strict priority order of
the four alpha branches (recent role flip, zero-EMA streak, fee-bump
streak, balanced default). `num_role_flips` is `len(section["role_flips"])`. -/
def get_adaptive_alpha (days_since_flip : ℤ) (num_role_flips : ℕ)
    (fee_bump_streak zero_ema_count : ℤ) (alpha : AlphaParams) : ℚ × ℚ × ℚ :=
  if days_since_flip ≤ alpha.role_flip_days ∧ num_role_flips ≥ alpha.min_role_flips then
    (alpha.weighted_1d, alpha.weighted_5d, alpha.weighted_7d)
  else if zero_ema_count ≥ alpha.zero_ema_trigger then
    (min alpha.zero_ema_max_1d (alpha.balanced_1d + alpha.zero_ema_1d_boost),
     min alpha.zero_ema_max_5d (alpha.balanced_5d + alpha.zero_ema_5d_boost),
     min alpha.zero_ema_max_7d (alpha.balanced_7d + alpha.zero_ema_7d_boost))
  else if fee_bump_streak ≥ alpha.fee_bump_streak_threshold then
    (max alpha.fee_bump_min_1d (alpha.balanced_1d - alpha.fee_bump_decay_1d),
     max alpha.fee_bump_min_5d (alpha.balanced_5d - alpha.fee_bump_decay_5d),
     max alpha.fee_bump_min_7d (alpha.balanced_7d - alpha.fee_bump_decay_7d))
  else
    (alpha.balanced_1d, alpha.balanced_5d, alpha.balanced_7d)

/-- The alpha parameter set exercised by the repository test suite
(`test_autotune_get_adaptive_alpha.py`), with balanced alphas
`(0.07, 0.08, 0.09)`. -/
def testAlphaParams : AlphaParams where
  role_flip_days := 3
  min_role_flips := 2
  zero_ema_trigger := 1
  weighted_1d := 11/100
  weighted_5d := 22/100
  weighted_7d := 33/100
  zero_ema_max_1d := 2/10
  zero_ema_max_5d := 3/10
  zero_ema_max_7d := 4/10
  zero_ema_1d_boost := 2/100
  zero_ema_5d_boost := 3/100
  zero_ema_7d_boost := 4/100
  fee_bump_streak_threshold := 2
  fee_bump_min_1d := 4/100
  fee_bump_min_5d := 5/100
  fee_bump_min_7d := 6/100
  fee_bump_decay_1d := 1/100
  fee_bump_decay_5d := 2/100
  fee_bump_decay_7d := 3/100
  balanced_1d := 7/100
  balanced_5d := 8/100
  balanced_7d := 9/100

/-! ## Policy clamp (autotune/policy_utils.enforce_policy)

`Policy` is a nested configuration dictionary.  Keys read through
`.get(key, default)` in the source are modelled as `Option` fields used with
`Option.getD`; keys read by plain attribute access (which raises when
missing) are modelled as plain fields.  Logging side effects are dropped.
-/

/-- Per-channel policy block (`policy.channels[section]`). -/
structure ChannelConf where
  min_range_ppm : Option ℤ
  max_range_ppm : Option ℤ
  min_inbound_fee_ppm : Option ℤ
  max_inbound_fee_ppm : Option ℤ
  inbound_fee_ppm : Option ℤ
  max_fee_ppm : Option ℤ
  min_fee_ppm : Option ℤ

/-- An absent channel block: `policy.channels.get(name, {})`. -/
def ChannelConf.empty : ChannelConf :=
  ⟨none, none, none, none, none, none, none⟩

/-- The `[fees]` policy section (attribute access in the source). -/
structure FeesConf where
  min_ppm : ℤ
  max_ppm : ℤ
  increment_ppm : ℤ
  bump_max : ℤ
  min_max_rat : ℚ

/-- The `[inbound_fees]` policy section.  `max_fee_ppm` is read by plain
attribute access in rule F5, the rest through `.get` with defaults. -/
structure InboundFeesConf where
  max_ppm : Option ℤ
  min_ppm : Option ℤ
  increment_ppm : Option ℤ
  max_fee_ppm : ℤ
  min_fee_ppm : Option ℤ
  sink_pct : Option ℚ
  tap_pct : Option ℚ
  risk_high : Option ℚ
  risk_low : Option ℚ

/-- The `[htlc]` policy section. -/
structure HtlcConf where
  failed_htlc_threshold : ℤ
  fail_short_term : Option ℚ
  fail_short_term_threshold : Option ℤ
  fail_long_term : Option ℚ

/-- The `[timing]` policy section. -/
structure TimingConf where
  cooldown_hours : ℤ
  fee_backoff_hours : ℤ
  failed_bump_flag_hours : ℤ

/-- The `[rules]` policy section. -/
structure RulesConf where
  sink_guard_disabled : List String
  inbound_fees_disabled : List String

/-- The policy object handed to `enforce_policy` and the rule engine. -/
structure Policy where
  fees : FeesConf
  inbound_fees : InboundFeesConf
  htlc : HtlcConf
  timing : TimingConf
  rules : RulesConf
  channels : List (String × ChannelConf)

/-- `policy.channels.get(section_name, {})`. -/
def Policy.channelConf (p : Policy) (section_name : String) : ChannelConf :=
  match p.channels.lookup section_name with
  | some c => c
  | none => ChannelConf.empty

/-- Proposed fee triple entering `enforce_policy`
(`inbound_fee_ppm` is read with `.get(..., 0)`). -/
structure NewFees where
  min_fee_ppm : ℤ
  max_fee_ppm : ℤ
  inbound_fee_ppm : Option ℤ

/-- The clamped fee triple written back into `new_fees`. -/
structure EnforcedFees where
  min_fee_ppm : ℤ
  max_fee_ppm : ℤ
  inbound_fee_ppm : ℤ
deriving DecidableEq

/-- The per-peer state keys read by `enforce_policy`. -/
structure ClampState where
  last_successful_fee : Option ℤ
  last_successful_inbound_fee : Option ℤ

/-- `autotune/policy_utils.py`, `enforce_policy` lines 53-182: clamp the
proposed `(min_fee, max_fee, inbound_fee)` against resolved per-channel or
global bounds and the 1.5x last-successful-fee ceiling, then mirror the
accepted `max_fee`/`inbound_fee` into the state (returned as the second
component).  `int(x * 1.5)` is modelled as truncation of the exact product. -/
def enforce_policy (section_name : String) (new_fees : NewFees)
    (state : ClampState) (policy : Policy) : EnforcedFees × (ℤ × ℤ) :=
  let chconf := policy.channelConf section_name
  let global_min_fee := policy.fees.min_ppm
  let global_max_fee := policy.fees.max_ppm
  let global_max_inbound_fee := (policy.inbound_fees.max_ppm).getD 3000
  let global_min_inbound_fee := (policy.inbound_fees.min_ppm).getD (-1000)
  let global_inbound_increment := (policy.inbound_fees.increment_ppm).getD 25
  let chan_min_fee := chconf.min_range_ppm.getD global_min_fee
  let chan_max_fee := chconf.max_range_ppm.getD global_max_fee
  -- NOTE: the source defaults the channel inbound *minimum* to the global
  -- inbound *maximum* (policy_utils.py line 73); embedded as written.
  let chan_min_inbound := chconf.min_inbound_fee_ppm.getD global_max_inbound_fee
  let chan_max_inbound := chconf.max_inbound_fee_ppm.getD global_max_inbound_fee
  let max_fee0 := new_fees.max_fee_ppm
  let min_fee0 := new_fees.min_fee_ppm
  let inbound0 := new_fees.inbound_fee_ppm.getD 0
  let last_successful_fee := state.last_successful_fee.getD chan_max_fee
  let last_successful_inbound_fee :=
    state.last_successful_inbound_fee.getD global_inbound_increment
  let policy_max :=
    min global_max_fee (min chan_max_fee (pyTrunc ((last_successful_fee : ℚ) * (3/2))))
  let policy_min := pyTrunc ((policy_max : ℚ) / 2)
  let policy_inbound_max :=
    min global_max_inbound_fee
      (min chan_max_inbound (pyTrunc ((last_successful_inbound_fee : ℚ) * (3/2))))
  let policy_inbound_min := min global_min_inbound_fee chan_min_inbound
  let max_fee1 := min max_fee0 policy_max
  let min_fee1 := min min_fee0 policy_min
  let max_fee2 := max max_fee1 min_fee1
  let inbound1 := if inbound0 > policy_inbound_max then min inbound0 policy_inbound_max else inbound0
  let inbound2 :=
    if inbound1 < 0 ∧ inbound1 < policy_inbound_min then max inbound1 policy_inbound_min
    else inbound1
  let inbound3 :=
    if inbound2 < 0 ∧ inbound2 < -max_fee2 then max inbound2 (-max_fee2) else inbound2
  (⟨min_fee1, max_fee2, inbound3⟩, (max_fee2, inbound3))

/-- Resolved `policy_max` of `enforce_policy` (for stating hypotheses). -/
def enforcePolicyMax (section_name : String) (state : ClampState) (policy : Policy) : ℤ :=
  let chconf := policy.channelConf section_name
  let chan_max_fee := chconf.max_range_ppm.getD policy.fees.max_ppm
  let last_successful_fee := state.last_successful_fee.getD chan_max_fee
  min policy.fees.max_ppm
    (min chan_max_fee (pyTrunc ((last_successful_fee : ℚ) * (3/2))))

/-- Resolved inbound bounds `(policy_inbound_min, policy_inbound_max)` of
`enforce_policy` (for stating hypotheses). -/
def enforcePolicyInboundBounds (section_name : String) (state : ClampState)
    (policy : Policy) : ℤ × ℤ :=
  let chconf := policy.channelConf section_name
  let global_max_inbound_fee := (policy.inbound_fees.max_ppm).getD 3000
  let global_min_inbound_fee := (policy.inbound_fees.min_ppm).getD (-1000)
  let global_inbound_increment := (policy.inbound_fees.increment_ppm).getD 25
  let chan_min_inbound := chconf.min_inbound_fee_ppm.getD global_max_inbound_fee
  let chan_max_inbound := chconf.max_inbound_fee_ppm.getD global_max_inbound_fee
  let last_successful_inbound_fee :=
    state.last_successful_inbound_fee.getD global_inbound_increment
  (min global_min_inbound_fee chan_min_inbound,
   min global_max_inbound_fee
     (min chan_max_inbound (pyTrunc ((last_successful_inbound_fee : ℚ) * (3/2)))))

/-! ## Role state machine (autotune.update_role_state)

Calendar dates are modelled as integers; the source only ever compares the
date strings for equality.  `tracked` models the presence of the
`role_flips` key (the source initialises `role_flips`, `days_since_flip`
and `last_updated` together, and they co-occur in every state it creates).
-/

/-- One recorded role flip. -/
structure Flip where
  timestamp : ℤ
  role : String
deriving DecidableEq

/-- The role-tracking keys of a per-peer state section. -/
structure RoleSection where
  role : String
  tracked : Bool
  role_flips : List Flip
  days_since_flip : ℤ
  last_updated : ℤ
deriving DecidableEq

/-- `autotune/autotune.py`, `update_role_state` lines 381-419. -/
def update_role_state (now : ℤ) (s0 : RoleSection) (new_role : String) : RoleSection :=
  let s := if s0.tracked then s0 else
    { s0 with tracked := true, role_flips := [], days_since_flip := 0, last_updated := now }
  let previous_role := s.role
  if new_role ≠ previous_role then
    { s with
      role := new_role
      role_flips := s.role_flips ++ [⟨now, new_role⟩]
      days_since_flip := if previous_role ≠ "" then 0 else s.days_since_flip
      last_updated := now }
  else if s.last_updated ≠ now then
    { s with role := new_role, days_since_flip := s.days_since_flip + 1, last_updated := now }
  else
    { s with role := new_role }

/-! ## Sink-risk scoring (autotune/calculations.compute_sink_risk_score) -/

/-- Welford rolling-statistics entry as read by the scorer
(each key defaults to 0 when absent). -/
structure RollingHist where
  n : ℤ
  mean : ℚ
  std : ℚ

/-- The per-peer state keys read by `compute_sink_risk_score`. -/
structure SinkScoreState where
  ema_blended : ℚ
  ema_delta : ℚ
  rev_ema_blended : ℚ
  rev_delta : ℚ
  zero_ema_count : ℤ
  fee_bump_streak : ℤ
  fail_rate_1h : ℚ
  percentage_outbound : ℚ
  ema_hist : RollingHist
  rev_ema_hist : RollingHist
  fail_rate_hist : RollingHist
  sink_risk_score : ℚ

/-- Sufficient history: `n >= 100` samples in the blended-EMA history. -/
def enoughHistory (s : SinkScoreState) : Prop := s.ema_hist.n ≥ 100

instance (s : SinkScoreState) : Decidable (enoughHistory s) :=
  inferInstanceAs (Decidable (s.ema_hist.n ≥ 100))

/-- Outbound-liquidity banding increment (calculations.py lines 108-122). -/
def sinkBandIncrement (p : ℚ) : ℚ :=
  if p ≤ 1/10 then 1/2
  else if p ≤ 2/10 then 3/10
  else if p ≤ 3/10 then 15/100
  else if p ≤ 4/10 then 1/20
  else if p ≥ 7/10 then -(1/2)
  else 0

/-- First recovery signal: blended EMA above `mean + std`. -/
def sinkRecovery1 (s : SinkScoreState) : Prop :=
  s.ema_blended > s.ema_hist.mean + s.ema_hist.std

/-- Second recovery signal: revenue EMA above `mean + std`. -/
def sinkRecovery2 (s : SinkScoreState) : Prop :=
  s.rev_ema_blended > s.rev_ema_hist.mean + s.rev_ema_hist.std

/-- Third recovery signal: 1h fail rate two standard deviations below mean. -/
def sinkRecovery3 (s : SinkScoreState) : Prop :=
  s.fail_rate_hist.std > 0 ∧
    s.fail_rate_1h < max (s.fail_rate_hist.mean - 2 * s.fail_rate_hist.std) 0

instance (s : SinkScoreState) : Decidable (sinkRecovery1 s) :=
  inferInstanceAs (Decidable (s.ema_blended > s.ema_hist.mean + s.ema_hist.std))

instance (s : SinkScoreState) : Decidable (sinkRecovery2 s) :=
  inferInstanceAs (Decidable (s.rev_ema_blended > s.rev_ema_hist.mean + s.rev_ema_hist.std))

instance (s : SinkScoreState) : Decidable (sinkRecovery3 s) :=
  inferInstanceAs (Decidable (_ ∧ _))

/-- Number of independent recovery signals firing in the history branch. -/
def sinkRecoveryCount (s : SinkScoreState) : ℕ :=
  (if sinkRecovery1 s then 1 else 0) + (if sinkRecovery2 s then 1 else 0) +
    (if sinkRecovery3 s then 1 else 0)

/-- The `recovery` flag of the source: some recovery signal fired. -/
def sinkRecoveryFired (s : SinkScoreState) : Prop :=
  sinkRecovery1 s ∨ sinkRecovery2 s ∨ sinkRecovery3 s

instance (s : SinkScoreState) : Decidable (sinkRecoveryFired s) :=
  inferInstanceAs (Decidable (_ ∨ _ ∨ _))

/-- Accumulated increment of the sufficient-history branch before the
hard-reset check (calculations.py lines 108-145). -/
def sinkHistoryRaw (s : SinkScoreState) : ℚ :=
  sinkBandIncrement s.percentage_outbound
    + (if s.ema_blended < max (s.ema_hist.mean - s.ema_hist.std) 0 then 1/5 else 0)
    + (if s.rev_ema_blended < max (s.rev_ema_hist.mean - s.rev_ema_hist.std) 0 then 1/10 else 0)
    + (if s.fail_rate_hist.std > 0 ∧
          s.fail_rate_1h > s.fail_rate_hist.mean + 2 * s.fail_rate_hist.std then 1/10 else 0)
    - (if sinkRecovery1 s then 1/5 else 0)
    - (if sinkRecovery2 s then 1/5 else 0)
    - (if sinkRecovery3 s then 3/20 else 0)

/-- Sufficient-history increment after the hard-reset check
(calculations.py lines 147-149). -/
def sinkHistoryIncrement (s : SinkScoreState) : ℚ :=
  if sinkRecoveryFired s ∧ sinkHistoryRaw s < 0 then 0 else sinkHistoryRaw s

/-- Static-threshold fallback increment for insufficient history
(calculations.py lines 151-170). -/
def sinkStaticIncrement (s : SinkScoreState) : ℚ :=
  sinkBandIncrement s.percentage_outbound
    + (if s.ema_blended < 25000 ∧ s.ema_delta < 0 then 2/5
       else if s.ema_blended > 50000 ∧ s.ema_delta > 0 then -(1/5) else 0)
    + (if s.rev_ema_blended < 100 ∧ s.rev_delta ≤ 0 then 3/10
       else if s.rev_ema_blended > 500 ∧ s.rev_delta > 0 then -(3/20) else 0)
    + (if s.zero_ema_count ≥ 1 then 1/20 else 0)
    + (if s.fee_bump_streak ≥ 5 then 1/20 else 0)

/-- `autotune/calculations.py`, `compute_sink_risk_score` lines 65-184:
combine the increment with the prior score, decaying by 0.05 when no
trigger fired, then round and clamp into `[0, 1]`. -/
def compute_sink_risk_score (s : SinkScoreState) : ℚ :=
  let score := if enoughHistory s then sinkHistoryIncrement s else sinkStaticIncrement s
  let score :=
    if score = 0 then max 0 (s.sink_risk_score - 1/20)
    else min 1 (s.sink_risk_score + score)
  max 0 (min 1 (pyRound2 score))

/-! ## State store (autotune/config_loader.py)

The filesystem is a partial map from file names to contents; a file either
holds a serialised peer-memory mapping (`valid`) or fails to deserialise /
validate (`corrupt`).  `json.dump` followed by `json.load` of a
string-keyed mapping is the identity, so a saved mapping reloads as itself.
The crash-free effect of the temp-file/fsync/verify/atomic-replace dance in
`save_peer_memory` is: rotate, then the primary holds the new contents and
the temp file is gone.
-/

/-- Files touched by the state store. -/
inductive FileId where
  | primary : FileId
  | backup (i : ℕ) : FileId
  | tmp : FileId
deriving DecidableEq

/-- Contents of one on-disk file. -/
inductive FileContent (α : Type) where
  | valid (m : α) : FileContent α
  | corrupt : FileContent α

/-- A filesystem: file name to contents, `none` when the file is absent. -/
def FS (α : Type) : Type := FileId → Option (FileContent α)

/-- `BACKUP_COUNT = 1000` (config_loader.py line 8). -/
def BACKUP_COUNT : ℕ := 1000

/-- The name rotated into `path.i`: `path.(i-1)` for `i > 1`, else `path`. -/
def olderId (i : ℕ) : FileId := if 1 < i then FileId.backup (i - 1) else FileId.primary

/-- One step of the backup rotation: `shutil.copy2(older, path.i)` when
`older` exists. -/
def rotateStep (fs : FS α) (i : ℕ) : FS α :=
  match fs (olderId i) with
  | some c => Function.update fs (FileId.backup i) (some c)
  | none => fs

/-- `for i in range(BACKUP_COUNT, 0, -1)` of `save_peer_memory`. -/
def rotate_backups (fs : FS α) : FS α :=
  (((List.range BACKUP_COUNT).map (· + 1)).reverse).foldl rotateStep fs

/-- `autotune/config_loader.py`, `save_peer_memory` lines 18-41. -/
def save_peer_memory (fs : FS α) (m : α) : FS α :=
  let fs1 := Function.update fs FileId.tmp (some (FileContent.valid m))
  let fs2 := rotate_backups fs1
  Function.update (Function.update fs2 FileId.primary (some (FileContent.valid m)))
    FileId.tmp none

/-- One load attempt: open, `json.load`, validate; `none` on any failure. -/
def tryLoad (fs : FS α) (f : FileId) : Option α :=
  match fs f with
  | some (FileContent.valid m) => some m
  | _ => none

/-- The candidate tried at loop index `i`: the primary file for `i = 0`,
else `path.i`. -/
def candidateFile (i : ℕ) : FileId :=
  if i = 0 then FileId.primary else FileId.backup i

/-- The loop `for i in range(0, BACKUP_COUNT + 1)` of `load_peer_memory`,
with `fuel` candidates left to try from index `i`. -/
def loadLoop (fs : FS α) : ℕ → ℕ → Option α
  | _, 0 => none
  | i, fuel + 1 =>
    match tryLoad fs (candidateFile i) with
    | some m => some m
    | none => loadLoop fs (i + 1) fuel

/-- `autotune/config_loader.py`, `load_peer_memory` lines 44-55: first
candidate that deserialises to a valid mapping; `none` models the empty
cold-start state returned when every candidate fails. -/
def load_peer_memory (fs : FS α) : Option α :=
  loadLoop fs 0 (BACKUP_COUNT + 1)

/-! ## Rule engine (autotune/rule_engine.py)

One entry of `peer_mem["htlc_stats"]`: rule H1 looks each window up both
under the integer key (fresh in-memory stats) and the string key (stats
that went through a JSON round trip), combining them with Python `or`.
Logging is dropped; `ctx.calculate_exponential_fee_bump` is the function
`autotune.calculate_exponential_fee_bump` that production wiring installs
in the context, embedded below and called directly by rule C1.
`sink_rat` embeds the context field `sink_ratio` of the source.
-/

/-- One `htlc_stats` window record as read by rule H1. -/
structure HtlcEntry where
  fail_rate : Option ℚ
  fails : Option ℚ

/-- The `peer_mem` keys read by the rules (only `htlc_stats`). -/
structure PeerMem where
  htlc_int_3600 : Option HtlcEntry
  htlc_str_3600 : Option HtlcEntry
  htlc_int_86400 : Option HtlcEntry
  htlc_str_86400 : Option HtlcEntry

/-- A `peer_mem` with no `htlc_stats` content. -/
def PeerMem.empty : PeerMem := ⟨none, none, none, none⟩

/-- The decision context (`rule_engine.Context`).  `channel_data` and
`htlc_stats` are carried by the dataclass but never read by any rule. -/
structure Context where
  peer_alias : String
  peer_mem : PeerMem
  channel_data : Unit
  vol : ℤ
  vol_int : ℤ
  revenue : ℤ
  prev_ema_blended : ℚ
  ema_blended : ℚ
  ema_delta : ℚ
  prev_rev_ema_blended : ℚ
  rev_ema_blended : ℚ
  rev_delta : ℚ
  last_daily_vol : ℤ
  last_successful_fee : ℤ
  fee : ℤ
  min_fee : ℤ
  max_fee : ℤ
  inbound_fee : ℤ
  fee_bump_streak : ℕ
  zero_ema_count : ℤ
  htlc_stats : Unit
  role : String
  days_since_flip : ℤ
  sink_rat : ℚ
  sink_delta : ℚ
  sink_risk_score : ℚ
  ema_from_target : ℚ
  FEE_INCREMENT_PPM : ℤ
  FEE_MIN_PPM : ℤ
  FEE_MAX_PPM : ℤ
  DELTA_THRESHOLD : ℚ
  REVENUE_THRESHOLD : ℚ
  FEE_BUMP_MAX : ℤ
  policy : Policy
  percentage_outbound : ℚ
  skip_outbound_fee_adjust : Bool
  skip_inbound_fee_adjust : Bool

/-- A firing outcome (`rule_engine.RuleResult`). -/
structure RuleResult where
  rule_id : String
  new_min : ℤ
  new_max : ℤ
  weight : ℤ
  cooldown_override : Bool
  inbound_fee : Option ℤ
deriving DecidableEq

/-- `autotune/autotune.py`, `calculate_exponential_fee_bump` lines 362-378:
soft doubling below the increment floor, capped exponential bump above it.
Returns `(new_max, new_min, bump)`. -/
def calculate_exponential_fee_bump (current_fee : ℤ) (fee_bump_streak : ℕ)
    (fees : FeesConf) : ℤ × ℤ × ℤ :=
  if current_fee < fees.increment_ppm then
    let bump : ℤ := 2 ^ fee_bump_streak
    let new_max := min fees.increment_ppm (current_fee + bump)
    (new_max, pyFloorDiv new_max 2, bump)
  else
    let bump := min (fees.increment_ppm * 2 ^ fee_bump_streak) fees.bump_max
    let new_max := min fees.max_ppm (current_fee + bump)
    (new_max, pyFloorDiv new_max 2, bump)

/-- `rule_engine.fee_increase_skip_check`: skip growth rules when neither
the blended nor the revenue EMA moved at least 1 percent. -/
def fee_increase_skip_check (ctx : Context) : Bool :=
  |ctx.ema_blended - ctx.prev_ema_blended| < 1/100 * max |ctx.prev_ema_blended| 1 ∧
    |ctx.rev_ema_blended - ctx.prev_rev_ema_blended| < 1/100 * max |ctx.prev_rev_ema_blended| 1

/-- `rule_engine.fee_decay_skip_check`: skip decay rules at the fee floor
or when the blended EMA is not dropping significantly. -/
def fee_decay_skip_check (ctx : Context) : Bool :=
  if ctx.fee ≤ ctx.min_fee then true
  else if ctx.ema_blended ≥ ctx.prev_ema_blended ∨
      |ctx.ema_blended - ctx.prev_ema_blended| < 1/100 * max |ctx.prev_ema_blended| 1 then
    true
  else false

/-- `rule_engine.inbound_fee_skip_check`: skip inbound rules without a
significant blended-EMA change. -/
def inbound_fee_skip_check (ctx : Context) : Bool :=
  |ctx.ema_blended - ctx.prev_ema_blended| < 1/100 * max |ctx.prev_ema_blended| 1

/-- Rule A1 (`rule_a1_bootstrap_low_fee`): bootstrap a near-zero fee. -/
def rule_a1_bootstrap_low_fee (ctx : Context) : Option RuleResult :=
  if fee_increase_skip_check ctx then none
  else if ctx.max_fee ≤ 1 ∧ ctx.ema_blended > 100000 ∧ ctx.vol > ctx.last_daily_vol then
    some ⟨"A1_bootstrap_low_fee", 1, 2, 20, false, none⟩
  else none

/-- Rule A2 (`rule_a2_incremental_plus_one`): +1 step below the increment floor. -/
def rule_a2_incremental_plus_one (ctx : Context) : Option RuleResult :=
  if fee_increase_skip_check ctx then none
  else if ctx.max_fee < ctx.FEE_INCREMENT_PPM ∧ ctx.vol_int > 10000 ∧
      ctx.ema_blended > 100000 ∧ ctx.vol > ctx.last_daily_vol then
    let new_max := ctx.fee + 1
    some ⟨"A2_incremental_plus_one", pyFloorDiv new_max 2, new_max, 20, false, none⟩
  else none

/-- Rule B1 (`rule_b1_small_decay`). -/
def rule_b1_small_decay (ctx : Context) : Option RuleResult :=
  if fee_decay_skip_check ctx then none
  else if ctx.fee ≤ 0 then none
  else if ctx.fee < ctx.FEE_INCREMENT_PPM ∧ ctx.vol_int < 10000 ∧ ctx.vol ≤ ctx.last_daily_vol then
    let new_max := max 0 (ctx.fee - 1)
    some ⟨"B1_small_decay", pyFloorDiv new_max 2, new_max, 40, false, none⟩
  else none

/-- Rule B2 (`rule_b2_zero_volume_decay`). -/
def rule_b2_zero_volume_decay (ctx : Context) : Option RuleResult :=
  if fee_decay_skip_check ctx then none
  else if ctx.vol = 0 ∧ ctx.max_fee > 0 ∧ ctx.max_fee < ctx.FEE_INCREMENT_PPM ∧
      ctx.revenue = 0 ∧ ctx.ema_blended < 10000 then
    let new_max := max ctx.FEE_MIN_PPM (ctx.fee - 1)
    some ⟨"B2_zero_volume_decay", pyFloorDiv new_max 2, new_max, 35, false, none⟩
  else none

/-- Rule B3 (`rule_b3_generic_decay`). -/
def rule_b3_generic_decay (ctx : Context) : Option RuleResult :=
  if fee_decay_skip_check ctx then none
  else if ctx.vol = 0 then
    let new_max := max ctx.FEE_MIN_PPM (ctx.max_fee - ctx.FEE_INCREMENT_PPM)
    some ⟨"B3_generic_decay", pyFloorDiv new_max 2, new_max, 30, false, none⟩
  else none

/-- Rule C1 (`rule_c1_exponential_bump`): doubling bump on strong growth,
blocked above 1.5x the last successful fee, marks cooldown-override. -/
def rule_c1_exponential_bump (ctx : Context) : Option RuleResult :=
  if fee_increase_skip_check ctx then none
  else if ctx.ema_delta > ctx.ema_blended * ctx.DELTA_THRESHOLD ∧
      ctx.max_fee < ctx.FEE_MAX_PPM ∧ ctx.revenue > 0 then
    let r := calculate_exponential_fee_bump ctx.fee ctx.fee_bump_streak ctx.policy.fees
    let new_max := r.1
    let new_min := r.2.1
    let max_allowed :=
      if ctx.last_successful_fee ≠ 0 then pyTrunc ((ctx.last_successful_fee : ℚ) * (3/2))
      else ctx.max_fee
    if new_max > max_allowed then none
    else some ⟨"C1_exponential_bump", new_min, new_max, 100, true, none⟩
  else none

/-- Rule D1 (`rule_d1_negative_delta_decay`). -/
def rule_d1_negative_delta_decay (ctx : Context) : Option RuleResult :=
  if fee_decay_skip_check ctx then none
  else if (ctx.ema_delta < -ctx.ema_blended * ctx.DELTA_THRESHOLD ∧
        ctx.rev_delta < -ctx.rev_ema_blended * ctx.REVENUE_THRESHOLD) ∨
      (ctx.ema_delta = 0 ∧ ctx.rev_delta = 0 ∧ ctx.ema_blended = 0 ∧ ctx.rev_ema_blended = 0) then
    let new_max := max ctx.FEE_MIN_PPM (ctx.fee - ctx.FEE_INCREMENT_PPM)
    some ⟨"D1_negative_delta_decay", pyFloorDiv new_max 2, new_max, 25, false, none⟩
  else none

/-- Rule E1 (`rule_e1_zero_ema_exponential_decay`). -/
def rule_e1_zero_ema_exponential_decay (ctx : Context) : Option RuleResult :=
  if fee_decay_skip_check ctx then none
  else if ctx.zero_ema_count > 5 then
    let steps := min ctx.zero_ema_count 10
    let new_max := max ctx.FEE_MIN_PPM (ctx.fee - steps * ctx.FEE_INCREMENT_PPM)
    some ⟨"E1_zero_ema_exponential_decay", pyFloorDiv new_max 2, new_max, 20, false, none⟩
  else none

/-- Rule F1 (`rule_f1_role_flip_freeze`): freeze right after a role flip. -/
def rule_f1_role_flip_freeze (ctx : Context) : Option RuleResult :=
  if ctx.days_since_flip < 1 then
    some ⟨"F1_role_flip_freeze", ctx.min_fee, ctx.max_fee, 10, false, some ctx.inbound_fee⟩
  else none

/-- Rule F2 (`rule_f2_tap_surge_boost`): one-off concession for a fresh tap. -/
def rule_f2_tap_surge_boost (ctx : Context) : Option RuleResult :=
  if ctx.role = "tap" ∧ ctx.days_since_flip ≤ 3 ∧
      ctx.ema_delta > ctx.ema_blended * (5/100) ∧ ctx.fee = 0 then
    let channel_inbound_fee := ((ctx.policy.channelConf ctx.peer_alias).inbound_fee_ppm).getD 0
    some ⟨"F2_tap_surge_boost", 0, 1, 85, false, some (min ctx.inbound_fee channel_inbound_fee)⟩
  else none

/-- Rule F3 (`rule_f3_sink_ema_guard`): force fees up on a sharp sink
pattern (the source field `sink_ratio` is `sink_rat` here). -/
def rule_f3_sink_ema_guard (ctx : Context) : Option RuleResult :=
  if ctx.sink_rat > 5 ∧ ctx.ema_from_target < 250000 ∧ ctx.sink_delta > 1/2 then
    let bump := max 0 ctx.max_fee
    some ⟨"F3_ema_sink_guard", pyTrunc ((bump : ℚ) * (8/10)), bump, 70, false, none⟩
  else none

/-- Rule F4 (`rule_f4_sink_score_guard`). -/
def rule_f4_sink_score_guard (ctx : Context) : Option RuleResult :=
  if ctx.sink_risk_score < 9/10 then none
  else if ctx.peer_alias ∈ ctx.policy.rules.sink_guard_disabled then none
  else if ctx.fee ≥ 1000 then none
  else
    let bump := min (max (ctx.fee + ctx.FEE_INCREMENT_PPM) 1000) ctx.max_fee
    some ⟨"F4_sink_score_guard", bump, bump, 65, false, some ctx.inbound_fee⟩

/-- Rule F5 (`rule_f5_sink_inbound_tax`). -/
def rule_f5_sink_inbound_tax (ctx : Context) : Option RuleResult :=
  if inbound_fee_skip_check ctx then none
  else if ctx.sink_risk_score < 1/2 then none
  else if ctx.peer_alias ∈ ctx.policy.rules.sink_guard_disabled then none
  else if ctx.peer_alias ∈ ctx.policy.rules.inbound_fees_disabled then none
  else
    let max_fee := ctx.policy.inbound_fees.max_fee_ppm
    let inbound_fee0 := min (pyTrunc (0 + ctx.ema_blended / 4000)) max_fee
    let inbound_fee :=
      if ctx.inbound_fee > 0 then min inbound_fee0 ctx.inbound_fee else inbound_fee0
    if inbound_fee = ctx.inbound_fee then none
    else some ⟨"F5_sink_inbound_tax", ctx.min_fee, ctx.max_fee, 55, false, some inbound_fee⟩

/-- Rule F6 (`rule_f6_inbound_fee_decay`). -/
def rule_f6_inbound_fee_decay (ctx : Context) : Option RuleResult :=
  if ctx.inbound_fee ≤ 0 then none
  else if ctx.sink_risk_score < 1/2 then
    some ⟨"F6_inbound_fee_decay", ctx.min_fee, ctx.max_fee, 60, false, some 0⟩
  else if ctx.ema_blended < 100000 then
    let scale := max (ctx.ema_blended / 100000) (85/100)
    let target_fee := pyTrunc ((ctx.inbound_fee : ℚ) * scale)
    let decayed_fee := max (ctx.inbound_fee - 100) target_fee
    if decayed_fee < ctx.inbound_fee then
      some ⟨"F6_inbound_fee_decay", ctx.min_fee, ctx.max_fee, 55, false, some decayed_fee⟩
    else none
  else none

/-- Rule F7 (`rule_f7_subsidise_inbound`). -/
def rule_f7_subsidise_inbound (ctx : Context) : Option RuleResult :=
  if inbound_fee_skip_check ctx then none
  else if ctx.sink_risk_score ≥ 1/2 then none
  else if ctx.percentage_outbound > 1/10 then
    if ctx.inbound_fee < 0 then
      some ⟨"F7_subsidise_inbound", ctx.min_fee, ctx.max_fee, 50, false, some 0⟩
    else none
  else
    some ⟨"F7_subsidise_inbound", ctx.min_fee, ctx.max_fee, 50, false, some (-ctx.min_fee)⟩

/-- Rule H1 helper `next_fee`. -/
def h1NextFee (current increment : ℤ) : ℤ :=
  if current < increment then min (current + 1) increment else current + increment

/-- Rule H1 (`rule_h1_high_htlc_fail_rate`): escalate on high fail rates,
marks cooldown-override.  The int-keyed and string-keyed window stats are
combined with Python `or` (a `0`/`0.0` first operand falls through). -/
def rule_h1_high_htlc_fail_rate (ctx : Context) : Option RuleResult :=
  let stats := ctx.peer_mem
  let rate_1h := pyOrQ (stats.htlc_int_3600.bind (·.fail_rate))
    ((stats.htlc_str_3600.bind (·.fail_rate)).getD 0)
  let rate_24h := pyOrQ (stats.htlc_int_86400.bind (·.fail_rate))
    ((stats.htlc_str_86400.bind (·.fail_rate)).getD 0)
  let fails_1h := pyOrQ (stats.htlc_int_3600.bind (·.fails))
    ((stats.htlc_str_3600.bind (·.fails)).getD 0)
  let short_term_high := (ctx.policy.htlc.fail_short_term).getD (4/10)
  let short_term_threshold := (ctx.policy.htlc.fail_short_term_threshold).getD 25
  let long_term_high := (ctx.policy.htlc.fail_long_term).getD (3/10)
  let fee_inc := ctx.policy.fees.increment_ppm
  let fee_max := ctx.policy.fees.max_ppm
  if rate_1h > short_term_high ∧ fails_1h > (short_term_threshold : ℚ) ∧
      rate_24h > long_term_high then
    let new_max := min (h1NextFee ctx.max_fee fee_inc) fee_max
    some ⟨"H1_high_htlc_fail_rate", pyTrunc ((new_max : ℚ) / 2), new_max, 110, true, none⟩
  else if rate_1h > short_term_high ∧ fails_1h > (short_term_threshold : ℚ) then
    let new_max := min (h1NextFee ctx.max_fee fee_inc) fee_max
    some ⟨"H1_high_htlc_fail_rate", pyTrunc ((new_max : ℚ) / 2), new_max, 90, true, none⟩
  else none

/-- Rule H2 (`rule_h2_dynamic_inbound_fee`): adaptive inbound fill/drain
steps (the HTLC fail-rate veto of the source is commented out there). -/
def rule_h2_dynamic_inbound_fee (ctx : Context) : Option RuleResult :=
  if inbound_fee_skip_check ctx then none
  else
    let channel_conf := ctx.policy.channelConf ctx.peer_alias
    let inbound_conf := ctx.policy.inbound_fees
    let outbound_high := (inbound_conf.sink_pct).getD (3/4)
    let outbound_low := (inbound_conf.tap_pct).getD (1/4)
    let risk_high := (inbound_conf.risk_high).getD (7/10)
    let risk_low := (inbound_conf.risk_low).getD (3/10)
    let increment := (inbound_conf.increment_ppm).getD 25
    let max_positive_ppm := pyOrZ channel_conf.max_fee_ppm inbound_conf.max_fee_ppm
    let min_negative_ppm := pyOrZ channel_conf.min_fee_ppm ((inbound_conf.min_fee_ppm).getD (-100))
    let max_step := 2 * increment
    let ema_blended := max ctx.ema_blended 1
    let percent_delta := |ctx.ema_delta| / ema_blended
    let step := max 1 (min (pyTrunc ((increment : ℚ) * percent_delta)) max_step)
    let fill_cond := ctx.percentage_outbound > outbound_high ∨
      ((ctx.sink_risk_score > risk_high ∨ ctx.ema_delta > ema_blended * ctx.DELTA_THRESHOLD) ∧
        ctx.percentage_outbound > outbound_low)
    let fill_fee := min (ctx.inbound_fee + step) max_positive_ppm
    let drain_cond := ctx.percentage_outbound ≤ outbound_low ∨ ctx.sink_risk_score < risk_low ∨
      ctx.ema_delta < -ema_blended * ctx.DELTA_THRESHOLD
    let drain_fee := max (max (ctx.inbound_fee - step) min_negative_ppm) (-ctx.min_fee)
    if fill_cond ∧ fill_fee ≠ ctx.inbound_fee then
      some ⟨"H2_adaptive_inbound_fee_fill", ctx.min_fee, ctx.max_fee, 70, false, some fill_fee⟩
    else if drain_cond ∧ drain_fee ≠ ctx.inbound_fee then
      some ⟨"H2_adaptive_inbound_fee_drain", ctx.min_fee, ctx.max_fee, 70, false, some drain_fee⟩
    else none

/-- The ordered rule catalogue (`rule_engine.ALL_RULES` lines 796-821). -/
def ALL_RULES : List (Context → Option RuleResult) :=
  [rule_h1_high_htlc_fail_rate,
   rule_h2_dynamic_inbound_fee,
   rule_f1_role_flip_freeze,
   rule_f2_tap_surge_boost,
   rule_f3_sink_ema_guard,
   rule_f4_sink_score_guard,
   rule_f5_sink_inbound_tax,
   rule_f6_inbound_fee_decay,
   rule_f7_subsidise_inbound,
   rule_a1_bootstrap_low_fee,
   rule_a2_incremental_plus_one,
   rule_c1_exponential_bump,
   rule_b1_small_decay,
   rule_b2_zero_volume_decay,
   rule_b3_generic_decay,
   rule_d1_negative_delta_decay,
   rule_e1_zero_ema_exponential_decay]

/-- The firing outcomes, in catalogue order. -/
def firingResults (ctx : Context) : List RuleResult :=
  ALL_RULES.filterMap (fun rule => rule ctx)

/-- The outbound candidate list of `evaluate_fee_rules`: firing outcomes
whose proposed pair differs from the current `(min_fee, max_fee)`. -/
def outboundCandidates (ctx : Context) : List RuleResult :=
  (firingResults ctx).filter
    (fun r => decide (r.new_min ≠ ctx.min_fee ∨ r.new_max ≠ ctx.max_fee))

/-- The inbound candidate list of `evaluate_fee_rules`: firing outcomes
carrying an inbound fee that differs from the current one. -/
def inboundCandidates (ctx : Context) : List RuleResult :=
  (firingResults ctx).filter
    (fun r => decide (r.inbound_fee ≠ none ∧ r.inbound_fee ≠ some ctx.inbound_fee))

/-- Python `max(results, key=lambda r: r.weight, default=None)`: keeps the
current maximum unless a later element is strictly heavier, so the first
maximal element wins. -/
def pythonMax : List RuleResult → Option RuleResult
  | [] => none
  | x :: xs => some (xs.foldl (fun b r => if r.weight > b.weight then r else b) x)

/-- `rule_engine.evaluate_fee_rules` lines 824-851. -/
def evaluate_fee_rules (ctx : Context) : Option RuleResult × Option RuleResult :=
  (pythonMax (outboundCandidates ctx), pythonMax (inboundCandidates ctx))

/-- Specification-side ranking: `b` is the element of `l` with maximal
weight, ties broken in favour of the earliest element; `none` means `l`
is empty. -/
def isBestCandidate (l : List RuleResult) : Option RuleResult → Prop
  | none => l = []
  | some b => ∃ l1 l2, l = l1 ++ b :: l2 ∧
      (∀ c ∈ l1, c.weight < b.weight) ∧ (∀ c ∈ l2, c.weight ≤ b.weight)

/-! ## HTLC event stream correlator (scripts/main.match_and_buffer_events)

The polling loop is embedded as a state machine over the sequence of
successfully parsed events; each processed line carries the wall-clock
time `now` read by the expiry sweep of that iteration.  The pending map is
a Python dict: insertion order is preserved and re-insertion of an
existing key replaces in place.  Each buffered forward attempt is tagged
with its position in the stream so that resolutions can be counted.
The periodic batch/prune block only reads the durable buffer and is not
part of the per-event correlation state machine.
-/

/-- One parsed event line with the fields the correlator inspects.
`has_forward_event` etc. model the presence of the corresponding key. -/
structure RawEvent where
  incoming_channel_id : ℤ
  incoming_htlc_id : ℤ
  event_type : String
  has_forward_event : Bool
  has_forward_fail_event : Bool
  has_link_fail_event : Bool
  has_failure : Bool
  event_time : ℤ
deriving DecidableEq

/-- `key_from_event`: (incoming_channel_id, incoming_htlc_id). -/
def RawEvent.key (e : RawEvent) : ℤ × ℤ := (e.incoming_channel_id, e.incoming_htlc_id)

/-- The buffering condition: `event_type == "FORWARD" and event.get("forward_event")`. -/
def isForwardAttempt (e : RawEvent) : Prop :=
  e.event_type = "FORWARD" ∧ e.has_forward_event = true

instance (e : RawEvent) : Decidable (isForwardAttempt e) :=
  inferInstanceAs (Decidable (_ ∧ _))

/-- The terminal condition: `event_type in {"FORWARD_FAIL", "FINAL"} or any
of the keys forward_fail_event / link_fail_event / failure is present`. -/
def isTerminalEvent (e : RawEvent) : Prop :=
  e.event_type = "FORWARD_FAIL" ∨ e.event_type = "FINAL" ∨
    e.has_forward_fail_event = true ∨ e.has_link_fail_event = true ∨ e.has_failure = true

instance (e : RawEvent) : Decidable (isTerminalEvent e) :=
  inferInstanceAs (Decidable (_ ∨ _ ∨ _ ∨ _ ∨ _))

/-- A record appended to the durable buffer, tagged with the stream
position of the buffered attempt it resolves (`matched`, `synth`) or of
the solo failure event itself (`solo`). -/
inductive Record where
  | matched (attemptIdx : ℕ) (fwd : RawEvent) (result : RawEvent) (ts : ℤ) : Record
  | solo (idx : ℕ) (fwd : RawEvent) (ts : ℤ) : Record
  | synth (attemptIdx : ℕ) (fwd : RawEvent) (ts : ℤ) : Record
deriving DecidableEq

/-- The stream position of the buffered attempt a record resolves. -/
def Record.attemptRef : Record → Option ℕ
  | .matched j _ _ _ => some j
  | .solo _ _ _ => none
  | .synth j _ _ => some j

/-- The pending map: key to (stream position, buffered attempt event). -/
abbrev Pending : Type := List ((ℤ × ℤ) × (ℕ × RawEvent))

/-- Python dict insertion: replace in place, else append. -/
def pendInsert (p : Pending) (k : ℤ × ℤ) (v : ℕ × RawEvent) : Pending :=
  if p.any (fun kv => kv.1 = k) then
    p.map (fun kv => if kv.1 = k then (k, v) else kv)
  else p ++ [(k, v)]

/-- `pending.pop(k, None)`. -/
def pendLookup (p : Pending) (k : ℤ × ℤ) : Option (ℕ × RawEvent) :=
  (p.find? (fun kv => kv.1 = k)).map (·.2)

/-- Remove key `k` from the pending map. -/
def pendErase (p : Pending) (k : ℤ × ℤ) : Pending :=
  p.filter (fun kv => !(kv.1 = k : Bool))

/-- The match/buffer phase of one loop iteration (main.py lines 62-84):
buffer a forward attempt, match a terminal event against the pending
attempt of the same key, or emit a standalone record for an unmatched
`link_fail_event`. -/
def corrPhase1 (p : Pending) (i : ℕ) (e : RawEvent) : Pending × List Record :=
  if isForwardAttempt e then (pendInsert p e.key (i, e), [])
  else if isTerminalEvent e then
    match pendLookup p e.key with
    | some (j, fwd) => (pendErase p e.key, [Record.matched j fwd e e.event_time])
    | none =>
      if e.has_link_fail_event then (p, [Record.solo i e e.event_time]) else (p, [])
  else (p, [])

/-- The expiry sweep of one loop iteration (main.py lines 86-96): every
pending attempt older than `expiry_secs` is emitted as a synthetic
success (timestamped with the attempt time) and evicted. -/
def corrSweep (p : Pending) (now expiry_secs : ℤ) : Pending × List Record :=
  (p.filter (fun kv => !(now - kv.2.2.event_time > expiry_secs : Bool)),
   (p.filter (fun kv => (now - kv.2.2.event_time > expiry_secs : Bool))).map
     (fun kv => Record.synth kv.2.1 kv.2.2 kv.2.2.event_time))

/-- One loop iteration of `match_and_buffer_events` for a parsed event. -/
def corrStep (p : Pending) (i : ℕ) (e : RawEvent) (now expiry_secs : ℤ) :
    Pending × List Record :=
  let r1 := corrPhase1 p i e
  let r2 := corrSweep r1.1 now expiry_secs
  (r2.1, r1.2 ++ r2.2)

/-- Run the correlator over a stream of (event, wall-clock) pairs,
numbering events from `i`. -/
def corrRun (expiry_secs : ℤ) (p : Pending) (i : ℕ) :
    List (RawEvent × ℤ) → Pending × List Record
  | [] => (p, [])
  | (e, now) :: rest =>
    let r1 := corrStep p i e now expiry_secs
    let r2 := corrRun expiry_secs r1.1 (i + 1) rest
    (r2.1, r1.2 ++ r2.2)

/-- `scripts/main.py`, `match_and_buffer_events` lines 36-106, from an
empty pending map. -/
def match_and_buffer_events (expiry_secs : ℤ) (events : List (RawEvent × ℤ)) :
    Pending × List Record :=
  corrRun expiry_secs [] 0 events

/-- The `fwd` field of a buffer record as read by the stats aggregator. -/
def Record.fwdEvent : Record → RawEvent
  | .matched _ f _ _ => f
  | .solo _ f _ => f
  | .synth _ f _ => f

/-- Whether the record `result` side carries a `forward_fail_event` key
(the `result` of a solo record is `{}`, of a synthetic success
`{event_type: SUCCESS}`). -/
def Record.resultHasForwardFail : Record → Bool
  | .matched _ _ r _ => r.has_forward_fail_event
  | .solo _ _ _ => false
  | .synth _ _ _ => false

/-- The `ts` field of a buffer record. -/
def Record.ts : Record → ℤ
  | .matched _ _ _ t => t
  | .solo _ _ t => t
  | .synth _ _ t => t

/-- Per-window counters of `compute_peer_htlc_stats`. -/
structure HtlcCounts where
  total : ℕ
  fails : ℕ
  successes : ℕ
  local_fails : ℕ
  remote_fails : ℕ
deriving DecidableEq

/-- `autotune/process_htlc.py`, `compute_peer_htlc_stats` lines 48-83 for
one window: a record is a local fail when its attempt side carries a
`link_fail_event`, a remote fail when its outcome side carries a
`forward_fail_event`, otherwise it counts as a success. -/
def compute_peer_htlc_stats (records : List Record) (now win : ℤ) : HtlcCounts :=
  let in_window := records.filter (fun r => decide (r.ts ≥ now - win))
  let is_local : Record → Bool := fun r => r.fwdEvent.has_link_fail_event
  let is_remote : Record → Bool := fun r =>
    !r.fwdEvent.has_link_fail_event && r.resultHasForwardFail
  { total := in_window.length
    fails := (in_window.filter (fun r => is_local r || is_remote r)).length
    successes := (in_window.filter (fun r => !(is_local r || is_remote r))).length
    local_fails := (in_window.filter is_local).length
    remote_fails := (in_window.filter is_remote).length }

/-! ## Cooldown controller (autotune.adjust_channel_fees)

`now` and the stored timestamps are seconds; `timedelta(hours=h)` is
`3600 * h` and `timedelta(minutes=m)` is `60 * m`.  The absent
`cooldown_until` key stands for `datetime.min`, which never satisfies
`now <= cooldown_until`.  `min_fee`/`max_fee` are the values
`get_existing_fees` read from the downstream config file.  In the current
source the rule-engine branch constructs `rule_engine.Context` without six
of its required dataclass fields (`peer_mem`, `channel_data`,
`prev_ema_blended`, `prev_rev_ema_blended`, `last_successful_fee`,
`htlc_stats`), which raises `TypeError`; that branch is `Except.error ()`.
Keys read only to build that context or for logging (role, days since
flip, sink fields, outbound percentage) are omitted, as is the log-file
output.
-/

/-- The `channel_data` entries read by `adjust_channel_fees`. -/
structure ChannelData where
  vol : ℤ
  revenue : ℤ
  vol_int : ℤ
  ema_1d_new : ℚ
  ema_5d_new : ℚ
  ema_7d_new : ℚ
  revenue_ema_1d_new : ℚ
  revenue_ema_5d_new : ℚ
  revenue_ema_7d_new : ℚ
deriving DecidableEq

/-- The per-peer state keys read or written by `adjust_channel_fees`. -/
structure FeeSection where
  ema_blended : ℚ
  fee : Option ℤ
  last_successful_fee : Option ℤ
  last_daily_vol : Option ℤ
  inbound_fee : ℤ
  fee_bump_streak : ℕ
  cooldown_until : Option ℤ
  zero_ema_count : ℤ
  htlc_fail_count : ℤ
  fee_increase_failed_at : Option ℤ
  fee_bump_attempted_at : Option ℤ
  prev_ema_blended : ℚ
  ema_1d : ℚ
  ema_5d : ℚ
  ema_7d : ℚ
  revenue_ema_1d : ℚ
  revenue_ema_5d : ℚ
  revenue_ema_7d : ℚ
  sink_score_high_count : ℤ
  sink_score_low_count : ℤ
  neutral_sink_score_count : ℤ
  htlc_stuck_count : ℤ
deriving DecidableEq

/-- What `adjust_channel_fees` returns (plus the applied/updated flags,
which in the source drive the log record and the state mutations). -/
structure AdjustOutput where
  sec : FeeSection
  old_fees : EnforcedFees
  new_fees : EnforcedFees
  outbound_updated : Bool
  inbound_updated : Bool
deriving DecidableEq

/-- The shared tail of `adjust_channel_fees` (autotune.py lines 707-844):
floor/ceil, the negative-fee catch (which resets the local variables but
not the already-built `new_fees` dict), the failure-cooldown check, the
fee-change application, streak bookkeeping, cooldown stamping and the
trailing state stores. -/
def adjustTail (now : ℤ) (observe_only cooldown skip_outbound_fee_adjust : Bool)
    (min_fee max_fee : ℤ) (new_min0 new_max0 new_inbound : ℤ)
    (fee_bump_applied cooldown_override inbound_updated : Bool)
    (vol : ℤ) (old_fees : EnforcedFees) (fail_time bump_time : Option ℤ)
    (failed_htlc_count : ℤ) (fee_bump_streak : ℕ)
    (sec : FeeSection) (cd : ChannelData) (policy : Policy) : AdjustOutput :=
  let new_fees : EnforcedFees := ⟨new_min0, new_max0, new_inbound⟩
  let neg : Bool := new_max0 < 0 || new_min0 < 0
  let new_max := if neg then 0 else new_max0
  let new_min := if neg then 0 else new_min0
  let in_backoff : Bool :=
    match fail_time with
    | some ft => now - ft < 3600 * policy.timing.fee_backoff_hours
    | none => false
  let fail_cooldown : Bool := fee_bump_applied && in_backoff && !cooldown_override
  let outbound_updated0 : Bool := fee_bump_applied && in_backoff && cooldown_override
  let outbound_updated : Bool :=
    outbound_updated0 || ((new_min != min_fee || new_max != max_fee) && !fail_cooldown)
  let recent_bump_attempt : Bool :=
    match bump_time with
    | some bt => now - bt < 3600 * policy.timing.failed_bump_flag_hours
    | none => false
  let sec :=
    if !observe_only && !cooldown && !skip_outbound_fee_adjust then
      if !fee_bump_applied && recent_bump_attempt then
        { sec with fee_increase_failed_at := some now, fee_bump_streak := 0 }
      else if (!fee_bump_applied && !cooldown && new_max == max_fee) || fail_cooldown then
        { sec with fee_bump_streak := 0 }
      else if fee_bump_applied then
        { sec with fee_bump_attempted_at := some (now - 60),
                   fee_bump_streak := fee_bump_streak + 1 }
      else sec
    else sec
  let sec :=
    if outbound_updated then
      let cooldown_period :=
        if new_max > policy.fees.increment_ppm then
          60 * (policy.timing.cooldown_hours * 60 - 1)
        else 60 * (1 * 60 - 1)
      { sec with fee := some new_max, cooldown_until := some (now + cooldown_period) }
    else sec
  let sec := if inbound_updated then { sec with inbound_fee := new_inbound } else sec
  let sec :=
    if failed_htlc_count < policy.htlc.failed_htlc_threshold then
      { sec with htlc_fail_count := failed_htlc_count }
    else sec
  let sec :=
    if sec.ema_blended ≤ 1000 then
      { sec with zero_ema_count := sec.zero_ema_count + 1,
                 sink_score_high_count := 0, sink_score_low_count := 0,
                 neutral_sink_score_count := 0 }
    else { sec with zero_ema_count := 0 }
  let sec :=
    { sec with last_daily_vol := some vol, prev_ema_blended := sec.ema_blended,
               ema_1d := cd.ema_1d_new, ema_5d := cd.ema_5d_new, ema_7d := cd.ema_7d_new,
               revenue_ema_1d := cd.revenue_ema_1d_new,
               revenue_ema_5d := cd.revenue_ema_5d_new,
               revenue_ema_7d := cd.revenue_ema_7d_new,
               htlc_stuck_count := 0 }
  ⟨sec, old_fees, new_fees, outbound_updated, inbound_updated⟩

/-- `autotune/autotune.py`, `adjust_channel_fees` lines 513-844.  When the
peer is not observing and not cooling down: a failed-HTLC count at or
above the policy threshold triggers the direct exponential bump, and
otherwise the rule-engine branch raises (`Except.error`, see the section
comment).  During an active cooldown (or in observe mode) the rule engine
is never consulted and the candidate fees revert to the state fee
`(round(fee * min_max_ratio), fee)`. -/
def adjust_channel_fees (now : ℤ) (observe_only : Bool)
    (skip_outbound_fee_adjust skip_inbound_fee_adjust : Bool)
    (min_fee max_fee : ℤ) (sec0 : FeeSection) (cd : ChannelData)
    (policy : Policy) : Except Unit AdjustOutput :=
  let vol := max cd.vol 0
  let fee := sec0.fee.getD max_fee
  let sec := if cd.vol_int > 0 then { sec0 with last_successful_fee := some fee } else sec0
  let inbound_fee := sec.inbound_fee
  let old_fees : EnforcedFees := ⟨min_fee, max_fee, inbound_fee⟩
  let fee_bump_streak := sec.fee_bump_streak
  let cooldown : Bool := match sec.cooldown_until with | some t => now ≤ t | none => false
  let failed_htlc_count := sec.htlc_fail_count
  let fail_time := sec.fee_increase_failed_at
  let bump_time := sec.fee_bump_attempted_at
  if !observe_only && !cooldown then
    if failed_htlc_count ≥ policy.htlc.failed_htlc_threshold then
      let r := calculate_exponential_fee_bump max_fee fee_bump_streak policy.fees
      let sec := { sec with htlc_fail_count := 0 }
      Except.ok (adjustTail now observe_only cooldown skip_outbound_fee_adjust
        min_fee max_fee r.2.1 r.1 inbound_fee false false false vol old_fees
        fail_time bump_time failed_htlc_count fee_bump_streak sec cd policy)
    else
      Except.error ()
  else
    Except.ok (adjustTail now observe_only cooldown skip_outbound_fee_adjust
      min_fee max_fee (pyRound ((fee : ℚ) * policy.fees.min_max_rat)) fee inbound_fee
      false false false vol old_fees fail_time bump_time failed_htlc_count
      fee_bump_streak sec cd policy)

/-! ## Concrete inputs used by counterexamples and witnesses -/

/-- A plausible policy (values of the test fixtures/source defaults). -/
def examplePolicy : Policy where
  fees := ⟨0, 3000, 25, 250, 1/2⟩
  inbound_fees := ⟨none, none, none, 1000, none, none, none, none, none⟩
  htlc := ⟨100, none, none, none⟩
  timing := ⟨12, 12, 12⟩
  rules := ⟨[], []⟩
  channels := []

/-- Policy with a positive configured global inbound minimum. -/
def polC1 : Policy :=
  { examplePolicy with
    inbound_fees := { examplePolicy.inbound_fees with min_ppm := some 10 } }

/-- Proposed triple with a negative `min_fee_ppm` and a small positive
inbound fee. -/
def nfC1 : NewFees := ⟨-5, 10, some 5⟩

/-- Benign proposed triple for the C1 witness. -/
def nfC1W : NewFees := ⟨10, 2000, some (-30)⟩

/-- Empty clamp state: no last-successful fees recorded. -/
def stC1 : ClampState := ⟨none, none⟩

/-- Sink-score state with 100 history samples where exactly one recovery
signal (blended EMA above mean plus std) fires and nothing else does. -/
def exC6 : SinkScoreState :=
  ⟨200, 0, 100, 0, 0, 0, 0, 1/2, ⟨100, 100, 10⟩, ⟨0, 100, 10⟩, ⟨0, 0, 0⟩, 1/2⟩

/-- Context in which only rules F2 and F6 fire; F2 (weight 85) proposes
both an outbound change and a changed inbound fee. -/
def ctxC2 : Context where
  peer_alias := "peerA"
  peer_mem := PeerMem.empty
  channel_data := ()
  vol := 0
  vol_int := 0
  revenue := 0
  prev_ema_blended := 200000
  ema_blended := 200000
  ema_delta := 50000
  prev_rev_ema_blended := 0
  rev_ema_blended := 0
  rev_delta := 0
  last_daily_vol := 0
  last_successful_fee := 0
  fee := 0
  min_fee := 5
  max_fee := 10
  inbound_fee := 50
  fee_bump_streak := 0
  zero_ema_count := 0
  htlc_stats := ()
  role := "tap"
  days_since_flip := 2
  sink_rat := 1
  sink_delta := 0
  sink_risk_score := 0
  ema_from_target := 0
  FEE_INCREMENT_PPM := 25
  FEE_MIN_PPM := 0
  FEE_MAX_PPM := 2500
  DELTA_THRESHOLD := 1/10
  REVENUE_THRESHOLD := 1/10
  FEE_BUMP_MAX := 250
  policy := examplePolicy
  percentage_outbound := 1/2
  skip_outbound_fee_adjust := false
  skip_inbound_fee_adjust := false

/-- Structurally valid context with both skip flags set in which F3 fires
an outbound change and F6 an inbound change. -/
def ctxC4 : Context :=
  { ctxC2 with
    role := "balanced", sink_rat := 6, sink_delta := 1, min_fee := 0,
    skip_outbound_fee_adjust := true, skip_inbound_fee_adjust := true }

/-- Peer state inside an active cooldown window (until t = 2000) whose
stored fee (50) differs from the config-file fees. -/
def secC5 : FeeSection where
  ema_blended := 5000
  fee := some 50
  last_successful_fee := some 50
  last_daily_vol := some 0
  inbound_fee := 0
  fee_bump_streak := 0
  cooldown_until := some 2000
  zero_ema_count := 0
  htlc_fail_count := 0
  fee_increase_failed_at := none
  fee_bump_attempted_at := none
  prev_ema_blended := 5000
  ema_1d := 0
  ema_5d := 0
  ema_7d := 0
  revenue_ema_1d := 0
  revenue_ema_5d := 0
  revenue_ema_7d := 0
  sink_score_high_count := 0
  sink_score_low_count := 0
  neutral_sink_score_count := 0
  htlc_stuck_count := 0

/-- Channel data with no forwarding activity. -/
def cdC5 : ChannelData := ⟨0, 0, 0, 0, 0, 0, 0, 0, 0⟩

/-- A forward attempt event (key (7, 1), time 100). -/
def evFwd : RawEvent := ⟨7, 1, "FORWARD", true, false, false, false, 100⟩

/-- A terminal failure for the same key carrying only a link-failure
annotation. -/
def evLinkFail : RawEvent := ⟨7, 1, "", false, false, true, false, 101⟩

/-- A terminal FORWARD_FAIL for the same key. -/
def evFwdFail : RawEvent := ⟨7, 1, "FORWARD_FAIL", false, true, false, false, 102⟩

/-- An unrelated event far in the future (key (8, 9), time 2000). -/
def evOther : RawEvent := ⟨8, 9, "OTHER", false, false, false, false, 2000⟩

/-- Attempt followed by a matching link-failure terminal. -/
def exStreamC3 : List (RawEvent × ℤ) := [(evFwd, 100), (evLinkFail, 101)]

/-- Expected output of `adjust_channel_fees` at the C5 failing input: the
fee change is applied (state fee mirrored, cooldown re-stamped) although
the peer is inside an active cooldown and no rule was evaluated. -/
def c5out : AdjustOutput :=
  ⟨{ secC5 with fee := some 50, cooldown_until := some 44140 },
   ⟨50, 100, 0⟩, ⟨25, 50, 0⟩, true, false⟩

/-- The keys of the pending map, in order. -/
def pendingKeys (p : Pending) : List (ℤ × ℤ) := p.map (fun kv => kv.1)

/-- The multiset of attempt stream positions buffered in the pending map. -/
def pendingIdxM (p : Pending) : Multiset ℕ := (p.map (fun kv => kv.2.1) : List ℕ)

/-- The attempt positions resolved by a record list, in order. -/
def attemptRefs (rs : List Record) : List ℕ := rs.filterMap Record.attemptRef

/-- The entry `(k, v)` sits in the pending map and its key is unique. -/
def pendAt (p : Pending) (k : ℤ × ℤ) (v : ℕ × RawEvent) : Prop :=
  ∃ p1 p2, p = p1 ++ (k, v) :: p2 ∧ k ∉ pendingKeys p1 ∧ k ∉ pendingKeys p2

/-! # Theorems -/

/-- Claim C7 counterexample: with the balanced adaptive alphas
`(0.07, 0.08, 0.09)` of the repository parameter set (selected by
`get_adaptive_alpha` for a quiet peer) and horizon EMAs `(3, 0, 0)`, one
EMA update cycle with the sample equal to the current blended EMA moves
the blended EMA from `1` to `1.01`: the claimed fixed point fails for
unequal per-horizon alphas. -/
theorem C7_counterexample :
    (get_adaptive_alpha 999 0 0 0 testAlphaParams = (7/100, 8/100, 9/100)) ∧
    emaUpdateBlended 3 0 0 (7/100) (8/100) (9/100) (blendedEma 3 0 0) =
      101/100 ∧ blendedEma 3 0 0 = 1 := by
  refine ⟨?_, ?_, ?_⟩
  · norm_num [get_adaptive_alpha, testAlphaParams]
  · norm_num [emaUpdateBlended, blendedEma, emaStep]
  · norm_num [blendedEma]

/-- Claim C7 (amended): one EMA update cycle with the sample equal to the
current blended EMA leaves the blended EMA unchanged for every state of
the three horizon EMAs, provided the three selected alphas are equal (the
property fails for distinct alphas, see the counterexample). -/
theorem C7_ema_blended_fixed_point (e1 e5 e7 a : ℚ) :
    emaUpdateBlended e1 e5 e7 a a a (blendedEma e1 e5 e7) = blendedEma e1 e5 e7 := by
  unfold emaUpdateBlended blendedEma emaStep
  ring

/-- Claim C6 counterexample: at `exC6` the scorer has sufficient history,
exactly one recovery signal fires, the net increment is negative, and the
increment is nevertheless hard-reset to 0 — refuting that the reset
happens exactly when at least 3 recovery signals fire. -/
theorem C6_counterexample :
    enoughHistory exC6 ∧ sinkRecoveryCount exC6 = 1 ∧ sinkHistoryRaw exC6 < 0 ∧
      sinkHistoryIncrement exC6 = 0 ∧ sinkHistoryIncrement exC6 ≠ sinkHistoryRaw exC6 := by
  refine ⟨by decide, ?_, ?_, ?_, ?_⟩
  · norm_num [sinkRecoveryCount, sinkRecovery1, sinkRecovery2, sinkRecovery3, exC6]
  · norm_num [sinkHistoryRaw, sinkBandIncrement, sinkRecovery1, sinkRecovery2, sinkRecovery3,
      exC6]
  · norm_num [sinkHistoryIncrement, sinkRecoveryFired, sinkRecovery1, sinkRecovery2,
      sinkRecovery3, sinkHistoryRaw, sinkBandIncrement, exC6]
  · norm_num [sinkHistoryIncrement, sinkRecoveryFired, sinkRecovery1, sinkRecovery2,
      sinkRecovery3, sinkHistoryRaw, sinkBandIncrement, exC6]

/-- Claim C6 (amended): with sufficient history the accumulated increment
is hard-reset to 0 (after which the score takes the no-trigger decay path)
exactly when at least one recovery signal fires — equivalently, when the
`recovery` flag is set — and the net increment is negative. -/
theorem C6_increment_reset (s : SinkScoreState) (h : enoughHistory s) :
    (sinkRecoveryFired s ∧ sinkHistoryRaw s < 0 →
      sinkHistoryIncrement s = 0 ∧
        compute_sink_risk_score s = max 0 (min 1 (pyRound2 (max 0 (s.sink_risk_score - 1/20))))) ∧
    (¬(sinkRecoveryFired s ∧ sinkHistoryRaw s < 0) →
      sinkHistoryIncrement s = sinkHistoryRaw s) ∧
    (sinkRecoveryFired s ↔ 1 ≤ sinkRecoveryCount s) := by
  refine ⟨?_, ?_, ?_⟩
  · intro hr
    have hinc : sinkHistoryIncrement s = 0 := by
      unfold sinkHistoryIncrement
      exact if_pos hr
    refine ⟨hinc, ?_⟩
    unfold compute_sink_risk_score
    rw [if_pos h, hinc]
    simp
  · intro hr
    unfold sinkHistoryIncrement
    exact if_neg hr
  · unfold sinkRecoveryFired sinkRecoveryCount
    by_cases h1 : sinkRecovery1 s <;> by_cases h2 : sinkRecovery2 s <;>
      by_cases h3 : sinkRecovery3 s <;> simp [h1, h2, h3]

/-- Claim C6 witness: the amended theorem applied at `exC6`. -/
theorem C6_increment_reset_witness :
    sinkHistoryIncrement exC6 = 0 ∧
      compute_sink_risk_score exC6 =
        max 0 (min 1 (pyRound2 (max 0 (exC6.sink_risk_score - 1/20)))) := by
  refine (C6_increment_reset exC6 (by decide)).1 ⟨?_, ?_⟩
  · refine Or.inl ?_
    norm_num [sinkRecovery1, exC6]
  · norm_num [sinkHistoryRaw, sinkBandIncrement, sinkRecovery1, sinkRecovery2, sinkRecovery3,
      exC6]

/-- Claim C8 (confirmed): the first classification of an untracked peer
appends exactly one flip and leaves `days_since_flip` at 0; a call with
the stored role on the day already recorded in `last_updated` is the
identity (no flip appended, counter unchanged); a call with the stored
role on a different calendar day adds exactly 1 and stamps the day, so a
second same-day call adds nothing; and over any run of calls on pairwise
distinct successive days with the role unchanged the counter grows by
exactly the number of days. -/
theorem C8_role_state_machine (now : ℤ) (s : RoleSection) (r : String) :
    (s.tracked = false → s.role = "" → r ≠ "" →
      (update_role_state now s r).role_flips = [⟨now, r⟩] ∧
        (update_role_state now s r).days_since_flip = 0) ∧
    (s.tracked = true → s.role = r → s.last_updated = now →
      update_role_state now s r = s) ∧
    (s.tracked = true → s.role = r → s.last_updated ≠ now →
      update_role_state now s r =
        { s with days_since_flip := s.days_since_flip + 1, last_updated := now }) ∧
    (s.tracked = true → s.role = r →
      update_role_state now (update_role_state now s r) r = update_role_state now s r) ∧
    (∀ days : List ℤ, s.tracked = true → s.role = r →
      days.Chain' (· ≠ ·) → (∀ d0, days.head? = some d0 → s.last_updated ≠ d0) →
      (days.foldl (fun t d => update_role_state d t r) s).days_since_flip =
        s.days_since_flip + days.length) := by
  have hsame : ∀ (d : ℤ) (t : RoleSection), t.tracked = true → t.role = r →
      update_role_state d t r = if t.last_updated = d then t
        else { t with days_since_flip := t.days_since_flip + 1, last_updated := d } := by
    intro d t ht hrt
    obtain ⟨trole, ttr, tf, td, tl⟩ := t
    simp only at ht hrt
    subst ht hrt
    by_cases hd : tl = d <;> simp [update_role_state, hd]
  refine ⟨?_, ?_, ?_, ?_, ?_⟩
  · intro ht hrole hr
    obtain ⟨trole, ttr, tf, td, tl⟩ := s
    simp only at ht hrole
    subst ht hrole
    simp [update_role_state, hr]
  · intro ht hr hd
    rw [hsame now s ht hr, if_pos hd]
  · intro ht hr hd
    rw [hsame now s ht hr, if_neg hd]
  · intro ht hr
    rw [hsame now s ht hr]
    by_cases hd : s.last_updated = now
    · rw [if_pos hd, hsame now s ht hr, if_pos hd]
    · rw [if_neg hd]
      rw [hsame now { s with days_since_flip := s.days_since_flip + 1, last_updated := now }
        ht hr]
      rw [if_pos rfl]
  · intro days
    induction days generalizing s with
    | nil => intro _ _ _ _; simp
    | cons d rest ih =>
      intro ht hr hchain hhead
      have hc := List.chain'_cons'.mp hchain
      have hstep : update_role_state d s r =
          { s with days_since_flip := s.days_since_flip + 1, last_updated := d } := by
        rw [hsame d s ht hr, if_neg (hhead d rfl)]
      have hrec := ih { s with days_since_flip := s.days_since_flip + 1, last_updated := d }
        ht hr hc.2 (by
          intro d0 hd0
          show d ≠ d0
          exact hc.1 d0 (by simp [hd0]))
      simp only [List.foldl_cons, hstep]
      rw [hrec]
      simp only [List.length_cons]
      push_cast
      ring

/-- Claim C8 witness: a fresh peer classified as sink, re-classified the
same day, then on two later days. -/
theorem C8_role_state_machine_witness :
    (update_role_state 10 ⟨"", false, [], 0, 0⟩ "sink").role_flips = [⟨10, "sink"⟩] ∧
      (update_role_state 10 ⟨"", false, [], 0, 0⟩ "sink").days_since_flip = 0 ∧
      update_role_state 10 ⟨"sink", true, [⟨10, "sink"⟩], 0, 10⟩ "sink" =
        ⟨"sink", true, [⟨10, "sink"⟩], 0, 10⟩ ∧
      (([11, 12] : List ℤ).foldl (fun t d => update_role_state d t "sink")
          ⟨"sink", true, [⟨10, "sink"⟩], 0, 10⟩).days_since_flip = 2 := by
  have h := C8_role_state_machine 10 ⟨"", false, [], 0, 0⟩ "sink"
  have h2 := C8_role_state_machine 10 ⟨"sink", true, [⟨10, "sink"⟩], 0, 10⟩ "sink"
  refine ⟨(h.1 rfl rfl (by decide)).1, (h.1 rfl rfl (by decide)).2,
    h2.2.1 rfl rfl rfl, ?_⟩
  have h3 := (C8_role_state_machine 0 ⟨"sink", true, [⟨10, "sink"⟩], 0, 10⟩ "sink").2.2.2.2
    [11, 12] rfl rfl (by norm_num [List.chain'_cons])
    (by intro d0 hd0; simp at hd0; show (10 : ℤ) ≠ d0; omega)
  simpa using h3

/-- The search loop returns the first valid candidate: if every candidate
from index `i` up to (excluding) `j` fails and candidate `j` loads `m`,
the loop starting at `i` with enough fuel returns `m`. -/
theorem loadLoop_finds {α : Type} (fs : FS α) (m : α) :
    ∀ (fuel i j : ℕ), i ≤ j → j < i + fuel →
      (∀ k, i ≤ k → k < j → tryLoad fs (candidateFile k) = none) →
      tryLoad fs (candidateFile j) = some m →
      loadLoop fs i fuel = some m := by
  intro fuel
  induction fuel with
  | zero => intro i j hij hlt _ _; omega
  | succ n ih =>
    intro i j hij hlt hnone hsome
    unfold loadLoop
    rcases Nat.eq_or_lt_of_le hij with heq | hlt2
    · subst heq
      rw [hsome]
    · rw [hnone i le_rfl hlt2]
      exact ih (i + 1) j hlt2 (by omega) (fun k hk1 hk2 => hnone k (by omega) hk2) hsome

/-- If every candidate in range fails, the search loop returns `none`. -/
theorem loadLoop_none {α : Type} (fs : FS α) :
    ∀ (fuel i : ℕ), (∀ k, i ≤ k → k < i + fuel → tryLoad fs (candidateFile k) = none) →
      loadLoop fs i fuel = none := by
  intro fuel
  induction fuel with
  | zero => intro i _; rfl
  | succ n ih =>
    intro i hnone
    unfold loadLoop
    rw [hnone i le_rfl (by omega)]
    exact ih (i + 1) (fun k hk1 hk2 => hnone k (by omega) (by omega))

/-- Claim C9 (confirmed): `save_peer_memory` followed by `load_peer_memory`
returns exactly the saved mapping; when the primary file fails to load and
the numbered backups `path.1 .. path.(j-1)` fail too but `path.j` holds a
valid mapping, `load_peer_memory` returns that backup; and when no
candidate is valid it returns the empty cold-start state (`none`). -/
theorem C9_state_store (α : Type) (fs : FS α) (m : α) (j : ℕ) :
    (load_peer_memory (save_peer_memory fs m) = some m) ∧
    (1 ≤ j → j ≤ BACKUP_COUNT →
      tryLoad fs FileId.primary = none →
      (∀ i, 1 ≤ i → i < j → tryLoad fs (FileId.backup i) = none) →
      fs (FileId.backup j) = some (FileContent.valid m) →
      load_peer_memory fs = some m) ∧
    ((∀ i, i ≤ BACKUP_COUNT → tryLoad fs (candidateFile i) = none) →
      load_peer_memory fs = none) := by
  refine ⟨?_, ?_, ?_⟩
  · show loadLoop (save_peer_memory fs m) 0 (BACKUP_COUNT + 1) = some m
    unfold loadLoop
    have hpri : tryLoad (save_peer_memory fs m) (candidateFile 0) = some m := by
      unfold tryLoad save_peer_memory candidateFile
      simp [Function.update]
    rw [hpri]
  · intro h1 hN hpri hback hj
    have hjt : tryLoad fs (candidateFile j) = some m := by
      unfold tryLoad candidateFile
      rw [if_neg (by omega)]
      rw [hj]
    refine loadLoop_finds fs m (BACKUP_COUNT + 1) 0 j (by omega) (by omega) ?_ hjt
    intro k _ hk
    unfold candidateFile
    by_cases hk0 : k = 0
    · rw [if_pos hk0]
      exact hpri
    · rw [if_neg hk0]
      exact hback k (by omega) hk
  · intro hall
    refine loadLoop_none fs (BACKUP_COUNT + 1) 0 ?_
    intro k _ hk
    exact hall k (by omega)

/-- Claim C9 witness: a round trip over an empty filesystem, a fallback to
an intact first backup past a corrupt primary, and a cold start. -/
theorem C9_state_store_witness :
    (load_peer_memory (save_peer_memory (fun _ => none : FS ℕ) 7) = some 7) ∧
    (load_peer_memory (fun f => match f with
        | FileId.primary => some FileContent.corrupt
        | FileId.backup 1 => some (FileContent.valid 7)
        | _ => none : FS ℕ) = some 7) ∧
    (load_peer_memory (fun _ => none : FS ℕ) = (none : Option ℕ)) := by
  refine ⟨(C9_state_store ℕ (fun _ => none) 7 1).1, ?_, ?_⟩
  · refine (C9_state_store ℕ _ 7 1).2.1 le_rfl (by norm_num [BACKUP_COUNT]) rfl ?_ rfl
    intro i hi1 hi2
    omega
  · refine (C9_state_store ℕ _ 7 1).2.2 ?_
    intro i _
    rfl

/-- Truncation toward zero preserves non-negativity. -/
theorem pyTrunc_nonneg (q : ℚ) (h : 0 ≤ q) : 0 ≤ pyTrunc q := by
  unfold pyTrunc
  rw [if_neg (not_lt.mpr h)]
  exact Int.floor_nonneg.mpr h

/-- Claim C1 counterexample: with the policy `polC1` (configured global
inbound minimum 10), empty state and the proposed triple
`(min -5, max 10, inbound 5)`, `enforce_policy` returns `min_fee = -5 < 0`
and an inbound fee strictly below the configured inbound minimum: the
claimed postconditions fail as stated. -/
theorem C1_counterexample :
    (enforce_policy "s" nfC1 stC1 polC1).1.min_fee_ppm = -5 ∧
    (enforce_policy "s" nfC1 stC1 polC1).1.min_fee_ppm < 0 ∧
    (enforce_policy "s" nfC1 stC1 polC1).1.inbound_fee_ppm = 5 ∧
    (enforcePolicyInboundBounds "s" stC1 polC1).1 = 10 ∧
    (enforce_policy "s" nfC1 stC1 polC1).1.inbound_fee_ppm <
      (enforcePolicyInboundBounds "s" stC1 polC1).1 := by
  have h1 : (enforce_policy "s" nfC1 stC1 polC1).1.min_fee_ppm = -5 := by
    simp only [enforce_policy, nfC1, stC1, polC1, examplePolicy, Policy.channelConf,
      ChannelConf.empty, List.lookup_nil, Option.getD_none, Option.getD_some, pyTrunc]
    norm_num
  have h2 : (enforce_policy "s" nfC1 stC1 polC1).1.inbound_fee_ppm = 5 := by
    simp only [enforce_policy, nfC1, stC1, polC1, examplePolicy, Policy.channelConf,
      ChannelConf.empty, List.lookup_nil, Option.getD_none, Option.getD_some, pyTrunc]
    norm_num
  have h3 : (enforcePolicyInboundBounds "s" stC1 polC1).1 = 10 := by
    simp only [enforcePolicyInboundBounds, stC1, polC1, examplePolicy, Policy.channelConf,
      ChannelConf.empty, List.lookup_nil, Option.getD_none, Option.getD_some, pyTrunc]
    norm_num
  exact ⟨h1, by omega, h2, h3, by omega⟩

/-- Claim C1 (amended): `min_fee <= max_fee` holds unconditionally;
`0 <= min_fee` additionally needs the proposed `min_fee` and the resolved
policy ceiling to be non-negative (the source never clamps `min_fee`
upward); a negative returned inbound fee has magnitude at most the
returned `max_fee`; the returned inbound fee respects the configured
inbound maximum when the bounds are ordered and `-max_fee` does not exceed
that maximum, and respects the configured inbound minimum when that
minimum is non-positive (positive inbound proposals are never raised). -/
theorem C1_clamp_postconditions (section_name : String) (nf : NewFees)
    (st : ClampState) (p : Policy) :
    ((enforce_policy section_name nf st p).1.min_fee_ppm ≤
      (enforce_policy section_name nf st p).1.max_fee_ppm) ∧
    (0 ≤ nf.min_fee_ppm → 0 ≤ enforcePolicyMax section_name st p →
      0 ≤ (enforce_policy section_name nf st p).1.min_fee_ppm) ∧
    ((enforce_policy section_name nf st p).1.inbound_fee_ppm < 0 →
      -(enforce_policy section_name nf st p).1.inbound_fee_ppm ≤
        (enforce_policy section_name nf st p).1.max_fee_ppm) ∧
    ((enforcePolicyInboundBounds section_name st p).1 ≤
        (enforcePolicyInboundBounds section_name st p).2 →
      -(enforce_policy section_name nf st p).1.max_fee_ppm ≤
        (enforcePolicyInboundBounds section_name st p).2 →
      (enforce_policy section_name nf st p).1.inbound_fee_ppm ≤
        (enforcePolicyInboundBounds section_name st p).2) ∧
    ((enforcePolicyInboundBounds section_name st p).1 ≤ 0 →
      (enforcePolicyInboundBounds section_name st p).1 ≤
        (enforce_policy section_name nf st p).1.inbound_fee_ppm) := by
  unfold enforce_policy enforcePolicyMax enforcePolicyInboundBounds
  simp only
  refine ⟨?_, ?_, ?_, ?_, ?_⟩
  · omega
  · intro h0 hmax
    have hdiv : (0 : ℚ) ≤
        ((min p.fees.max_ppm (min ((p.channelConf section_name).max_range_ppm.getD
          p.fees.max_ppm) (pyTrunc ((st.last_successful_fee.getD
            ((p.channelConf section_name).max_range_ppm.getD p.fees.max_ppm) : ℤ) *
              (3/2)))) : ℤ) : ℚ) / 2 := by
      have := hmax
      positivity
    have := pyTrunc_nonneg _ hdiv
    omega
  · split_ifs <;> omega
  · intro hord hneg
    split_ifs at * <;> omega
  · intro hmin
    split_ifs <;> omega

/-- Claim C1 witness: the amended postconditions at a benign input
(proposed `(10, 2000, -30)` under the default policy). -/
theorem C1_clamp_postconditions_witness :
    (0 ≤ (enforce_policy "s" nfC1W stC1 examplePolicy).1.min_fee_ppm) ∧
    ((enforce_policy "s" nfC1W stC1 examplePolicy).1.min_fee_ppm ≤
      (enforce_policy "s" nfC1W stC1 examplePolicy).1.max_fee_ppm) ∧
    ((enforce_policy "s" nfC1W stC1 examplePolicy).1.inbound_fee_ppm ≤
      (enforcePolicyInboundBounds "s" stC1 examplePolicy).2) ∧
    ((enforcePolicyInboundBounds "s" stC1 examplePolicy).1 ≤
      (enforce_policy "s" nfC1W stC1 examplePolicy).1.inbound_fee_ppm) := by
  have h := C1_clamp_postconditions "s" nfC1W stC1 examplePolicy
  have hmax : (0 : ℤ) ≤ enforcePolicyMax "s" stC1 examplePolicy := by
    simp only [enforcePolicyMax, stC1, examplePolicy, Policy.channelConf,
      ChannelConf.empty, List.lookup_nil, Option.getD_none, Option.getD_some, pyTrunc]
    norm_num
  have hbounds : (enforcePolicyInboundBounds "s" stC1 examplePolicy) = (-1000, 37) := by
    simp only [enforcePolicyInboundBounds, stC1, examplePolicy, Policy.channelConf,
      ChannelConf.empty, List.lookup_nil, Option.getD_none, Option.getD_some, pyTrunc]
    norm_num
  have hmaxfee : (enforce_policy "s" nfC1W stC1 examplePolicy).1.max_fee_ppm = 2000 := by
    simp only [enforce_policy, nfC1W, stC1, examplePolicy, Policy.channelConf,
      ChannelConf.empty, List.lookup_nil, Option.getD_none, Option.getD_some, pyTrunc]
    norm_num
  refine ⟨h.2.1 (by norm_num [nfC1W]) hmax, h.1, ?_, ?_⟩
  · have := h.2.2.2.1 (by rw [hbounds]; norm_num) (by rw [hbounds, hmaxfee]; norm_num)
    exact this
  · exact h.2.2.2.2 (by rw [hbounds]; norm_num)

/-- The fold of Python `max(..., key=weight)` over `x :: xs` produces an
element of the list whose weight strictly exceeds every earlier element
and is at least every later element. -/
theorem pythonMax_foldl_best (xs : List RuleResult) : ∀ x : RuleResult,
    ∃ l1 l2, x :: xs =
        l1 ++ (xs.foldl (fun b r => if r.weight > b.weight then r else b) x) :: l2 ∧
      (∀ c ∈ l1, c.weight <
        (xs.foldl (fun b r => if r.weight > b.weight then r else b) x).weight) ∧
      (∀ c ∈ l2, c.weight ≤
        (xs.foldl (fun b r => if r.weight > b.weight then r else b) x).weight) := by
  induction xs with
  | nil => exact fun x => ⟨[], [], rfl, by simp, by simp⟩
  | cons y ys ih =>
    intro x
    simp only [List.foldl_cons]
    by_cases h : y.weight > x.weight
    · rw [if_pos h]
      obtain ⟨l1, l2, heq, h1, h2⟩ := ih y
      have hyres : y.weight ≤
          (ys.foldl (fun b r => if r.weight > b.weight then r else b) y).weight := by
        cases l1 with
        | nil =>
          have := (List.cons.injEq _ _ _ _).mp heq
          rw [← this.1]
        | cons a l1t =>
          have ha := (List.cons.injEq _ _ _ _).mp heq
          exact le_of_lt (h1 y (ha.1 ▸ List.mem_cons_self a l1t))
      refine ⟨x :: l1, l2, ?_, ?_, h2⟩
      · rw [List.cons_append, ← heq]
      · intro c hc
        rcases List.mem_cons.mp hc with rfl | hc2
        · exact lt_of_lt_of_le h hyres
        · exact h1 c hc2
    · rw [if_neg h]
      obtain ⟨l1, l2, heq, h1, h2⟩ := ih x
      cases l1 with
      | nil =>
        have hhead := (List.cons.injEq _ _ _ _).mp heq
        refine ⟨[], y :: ys, by rw [← hhead.1]; rfl, by simp, ?_⟩
        intro c hc
        rcases List.mem_cons.mp hc with rfl | hc2
        · rw [← hhead.1]
          exact not_lt.mp h
        · rw [← hhead.1] at h2 ⊢
          exact h2 c (hhead.2 ▸ hc2)
      | cons a l1t =>
        have ha := (List.cons.injEq _ _ _ _).mp heq
        refine ⟨x :: y :: l1t, l2, ?_, ?_, h2⟩
        · exact congrArg (fun t => x :: y :: t) ha.2
        · intro c hc
          rcases List.mem_cons.mp hc with rfl | hc2
          · exact h1 c (ha.1 ▸ List.mem_cons_self a l1t)
          · rcases List.mem_cons.mp hc2 with rfl | hc3
            · exact lt_of_le_of_lt (not_lt.mp h)
                (h1 x (ha.1 ▸ List.mem_cons_self a l1t))
            · exact h1 c (List.mem_cons_of_mem a hc3)

/-- `pythonMax` returns the best candidate of any list: the first element
of maximal weight, or `none` exactly on the empty list. -/
theorem pythonMax_isBest (l : List RuleResult) : isBestCandidate l (pythonMax l) := by
  cases l with
  | nil => rfl
  | cons x xs => exact pythonMax_foldl_best xs x

/-- A `pythonMax` result is a member of the candidate list. -/
theorem pythonMax_mem {l : List RuleResult} {b : RuleResult}
    (h : pythonMax l = some b) : b ∈ l := by
  have hb := pythonMax_isBest l
  rw [h] at hb
  obtain ⟨l1, l2, heq, _, _⟩ := hb
  rw [heq]
  exact List.mem_append.mpr (Or.inr (List.mem_cons_self _ _))

/-- The skip checks all fire at `ctxC2` (the EMAs did not move and the
fee sits at its floor). -/
theorem ctxC2_skips :
    fee_increase_skip_check ctxC2 = true ∧ fee_decay_skip_check ctxC2 = true ∧
      inbound_fee_skip_check ctxC2 = true := by
  refine ⟨?_, ?_, ?_⟩
  · norm_num [fee_increase_skip_check, ctxC2]
  · norm_num [fee_decay_skip_check, ctxC2]
  · norm_num [inbound_fee_skip_check, ctxC2]

/-- Rule-by-rule evaluation at `ctxC2`: only F2 and F6 fire. -/
theorem firing_at_ctxC2 :
    firingResults ctxC2 =
      [⟨"F2_tap_surge_boost", 0, 1, 85, false, some 0⟩,
       ⟨"F6_inbound_fee_decay", 5, 10, 60, false, some 0⟩] := by
  obtain ⟨hinc, hdec, hinb⟩ := ctxC2_skips
  have hh1 : rule_h1_high_htlc_fail_rate ctxC2 = none := by
    norm_num [rule_h1_high_htlc_fail_rate, ctxC2, examplePolicy, PeerMem.empty, pyOrQ]
  have hh2 : rule_h2_dynamic_inbound_fee ctxC2 = none := by
    simp [rule_h2_dynamic_inbound_fee, hinb]
  have hf1 : rule_f1_role_flip_freeze ctxC2 = none := by
    norm_num [rule_f1_role_flip_freeze, ctxC2]
  have hf2 : rule_f2_tap_surge_boost ctxC2 =
      some ⟨"F2_tap_surge_boost", 0, 1, 85, false, some 0⟩ := by
    norm_num [rule_f2_tap_surge_boost, ctxC2, examplePolicy, Policy.channelConf,
      ChannelConf.empty]
  have hf3 : rule_f3_sink_ema_guard ctxC2 = none := by
    norm_num [rule_f3_sink_ema_guard, ctxC2]
  have hf4 : rule_f4_sink_score_guard ctxC2 = none := by
    norm_num [rule_f4_sink_score_guard, ctxC2]
  have hf5 : rule_f5_sink_inbound_tax ctxC2 = none := by
    simp [rule_f5_sink_inbound_tax, hinb]
  have hf6 : rule_f6_inbound_fee_decay ctxC2 =
      some ⟨"F6_inbound_fee_decay", 5, 10, 60, false, some 0⟩ := by
    norm_num [rule_f6_inbound_fee_decay, ctxC2]
  have hf7 : rule_f7_subsidise_inbound ctxC2 = none := by
    simp [rule_f7_subsidise_inbound, hinb]
  have ha1 : rule_a1_bootstrap_low_fee ctxC2 = none := by
    simp [rule_a1_bootstrap_low_fee, hinc]
  have ha2 : rule_a2_incremental_plus_one ctxC2 = none := by
    simp [rule_a2_incremental_plus_one, hinc]
  have hc1 : rule_c1_exponential_bump ctxC2 = none := by
    simp [rule_c1_exponential_bump, hinc]
  have hb1 : rule_b1_small_decay ctxC2 = none := by
    simp [rule_b1_small_decay, hdec]
  have hb2 : rule_b2_zero_volume_decay ctxC2 = none := by
    simp [rule_b2_zero_volume_decay, hdec]
  have hb3 : rule_b3_generic_decay ctxC2 = none := by
    simp [rule_b3_generic_decay, hdec]
  have hd1 : rule_d1_negative_delta_decay ctxC2 = none := by
    simp [rule_d1_negative_delta_decay, hdec]
  have he1 : rule_e1_zero_ema_exponential_decay ctxC2 = none := by
    simp [rule_e1_zero_ema_exponential_decay, hdec]
  simp [firingResults, ALL_RULES, hh1, hh2, hf1, hf2, hf3, hf4, hf5, hf6, hf7,
    ha1, ha2, hc1, hb1, hb2, hb3, hd1, he1]

/-- `evaluate_fee_rules` at `ctxC2`: F2 wins both lists. -/
theorem evaluate_at_ctxC2 :
    evaluate_fee_rules ctxC2 =
      (some ⟨"F2_tap_surge_boost", 0, 1, 85, false, some 0⟩,
       some ⟨"F2_tap_surge_boost", 0, 1, 85, false, some 0⟩) := by
  have hout : outboundCandidates ctxC2 =
      [⟨"F2_tap_surge_boost", 0, 1, 85, false, some 0⟩] := by
    unfold outboundCandidates
    rw [firing_at_ctxC2]
    norm_num [ctxC2]
  have hin : inboundCandidates ctxC2 =
      [⟨"F2_tap_surge_boost", 0, 1, 85, false, some 0⟩,
       ⟨"F6_inbound_fee_decay", 5, 10, 60, false, some 0⟩] := by
    unfold inboundCandidates
    rw [firing_at_ctxC2]
    norm_num [ctxC2]
    exact Option.some_ne_none 0
  unfold evaluate_fee_rules
  rw [hout, hin]
  norm_num [pythonMax]

/-- Claim C2 (confirmed): `evaluate_fee_rules` returns as best outbound
the firing outbound candidate of maximal weight with ties broken in
favour of the rule registered earlier in `ALL_RULES` (Python `max` keeps
the first maximum), the best inbound candidate is chosen independently by
the same ranking, and one rule can win both lists (at `ctxC2`, rule F2
wins the outbound and the inbound list). -/
theorem C2_arbitration :
    (∀ ctx : Context,
      isBestCandidate (outboundCandidates ctx) (evaluate_fee_rules ctx).1 ∧
      isBestCandidate (inboundCandidates ctx) (evaluate_fee_rules ctx).2) ∧
    (∃ (ctx : Context) (r1 r2 : RuleResult), (evaluate_fee_rules ctx).1 = some r1 ∧
      (evaluate_fee_rules ctx).2 = some r2 ∧ r1.rule_id = r2.rule_id) := by
  refine ⟨fun ctx => ⟨pythonMax_isBest _, pythonMax_isBest _⟩, ?_⟩
  refine ⟨ctxC2, ⟨"F2_tap_surge_boost", 0, 1, 85, false, some 0⟩,
    ⟨"F2_tap_surge_boost", 0, 1, 85, false, some 0⟩, ?_, ?_, rfl⟩
  · rw [evaluate_at_ctxC2]
  · rw [evaluate_at_ctxC2]

/-- Claim C10 (confirmed): a best outbound returned by
`evaluate_fee_rules` always differs from the current `(min_fee, max_fee)`
pair, and a best inbound always carries an inbound fee that is not `None`
and differs from the current inbound fee — the no-op filters of lines
833-842 guarantee it. -/
theorem C10_no_noop (ctx : Context) (r : RuleResult) :
    ((evaluate_fee_rules ctx).1 = some r →
      r.new_min ≠ ctx.min_fee ∨ r.new_max ≠ ctx.max_fee) ∧
    ((evaluate_fee_rules ctx).2 = some r →
      r.inbound_fee ≠ none ∧ r.inbound_fee ≠ some ctx.inbound_fee) := by
  constructor
  · intro h
    have hmem := pythonMax_mem h
    have hp := List.of_mem_filter hmem
    exact of_decide_eq_true hp
  · intro h
    have hmem := pythonMax_mem h
    have hp := List.of_mem_filter hmem
    exact of_decide_eq_true hp

/-- Claim C10 witness: the winning F2 outcome at `ctxC2` differs from the
current fees on both lists. -/
theorem C10_no_noop_witness :
    ((⟨"F2_tap_surge_boost", 0, 1, 85, false, some 0⟩ : RuleResult).new_min ≠ ctxC2.min_fee ∨
      (⟨"F2_tap_surge_boost", 0, 1, 85, false, some 0⟩ : RuleResult).new_max ≠ ctxC2.max_fee) ∧
    ((⟨"F2_tap_surge_boost", 0, 1, 85, false, some 0⟩ : RuleResult).inbound_fee ≠ none ∧
      (⟨"F2_tap_surge_boost", 0, 1, 85, false, some 0⟩ : RuleResult).inbound_fee ≠
        some ctxC2.inbound_fee) := by
  have h := C10_no_noop ctxC2 ⟨"F2_tap_surge_boost", 0, 1, 85, false, some 0⟩
  exact ⟨h.1 (by rw [evaluate_at_ctxC2]), h.2 (by rw [evaluate_at_ctxC2])⟩

/-- The skip checks at `ctxC4` (same EMA state as `ctxC2`). -/
theorem ctxC4_skips :
    fee_increase_skip_check ctxC4 = true ∧ fee_decay_skip_check ctxC4 = true ∧
      inbound_fee_skip_check ctxC4 = true := by
  refine ⟨?_, ?_, ?_⟩
  · norm_num [fee_increase_skip_check, ctxC4, ctxC2]
  · norm_num [fee_decay_skip_check, ctxC4, ctxC2]
  · norm_num [inbound_fee_skip_check, ctxC4, ctxC2]

/-- Rule-by-rule evaluation at `ctxC4`: only F3 and F6 fire. -/
theorem firing_at_ctxC4 :
    firingResults ctxC4 =
      [⟨"F3_ema_sink_guard", 8, 10, 70, false, none⟩,
       ⟨"F6_inbound_fee_decay", 0, 10, 60, false, some 0⟩] := by
  obtain ⟨hinc, hdec, hinb⟩ := ctxC4_skips
  have hh1 : rule_h1_high_htlc_fail_rate ctxC4 = none := by
    norm_num [rule_h1_high_htlc_fail_rate, ctxC4, ctxC2, examplePolicy, PeerMem.empty, pyOrQ]
  have hh2 : rule_h2_dynamic_inbound_fee ctxC4 = none := by
    simp [rule_h2_dynamic_inbound_fee, hinb]
  have hf1 : rule_f1_role_flip_freeze ctxC4 = none := by
    norm_num [rule_f1_role_flip_freeze, ctxC4, ctxC2]
  have hf2 : rule_f2_tap_surge_boost ctxC4 = none := by
    norm_num [rule_f2_tap_surge_boost, ctxC4, ctxC2]
    intro h
    exact absurd h (by decide)
  have hf3 : rule_f3_sink_ema_guard ctxC4 =
      some ⟨"F3_ema_sink_guard", 8, 10, 70, false, none⟩ := by
    norm_num [rule_f3_sink_ema_guard, ctxC4, ctxC2, pyTrunc]
  have hf4 : rule_f4_sink_score_guard ctxC4 = none := by
    norm_num [rule_f4_sink_score_guard, ctxC4, ctxC2]
  have hf5 : rule_f5_sink_inbound_tax ctxC4 = none := by
    simp [rule_f5_sink_inbound_tax, hinb]
  have hf6 : rule_f6_inbound_fee_decay ctxC4 =
      some ⟨"F6_inbound_fee_decay", 0, 10, 60, false, some 0⟩ := by
    norm_num [rule_f6_inbound_fee_decay, ctxC4, ctxC2]
  have hf7 : rule_f7_subsidise_inbound ctxC4 = none := by
    simp [rule_f7_subsidise_inbound, hinb]
  have ha1 : rule_a1_bootstrap_low_fee ctxC4 = none := by
    simp [rule_a1_bootstrap_low_fee, hinc]
  have ha2 : rule_a2_incremental_plus_one ctxC4 = none := by
    simp [rule_a2_incremental_plus_one, hinc]
  have hc1 : rule_c1_exponential_bump ctxC4 = none := by
    simp [rule_c1_exponential_bump, hinc]
  have hb1 : rule_b1_small_decay ctxC4 = none := by
    simp [rule_b1_small_decay, hdec]
  have hb2 : rule_b2_zero_volume_decay ctxC4 = none := by
    simp [rule_b2_zero_volume_decay, hdec]
  have hb3 : rule_b3_generic_decay ctxC4 = none := by
    simp [rule_b3_generic_decay, hdec]
  have hd1 : rule_d1_negative_delta_decay ctxC4 = none := by
    simp [rule_d1_negative_delta_decay, hdec]
  have he1 : rule_e1_zero_ema_exponential_decay ctxC4 = none := by
    simp [rule_e1_zero_ema_exponential_decay, hdec]
  simp [firingResults, ALL_RULES, hh1, hh2, hf1, hf2, hf3, hf4, hf5, hf6, hf7,
    ha1, ha2, hc1, hb1, hb2, hb3, hd1, he1]

/-- `evaluate_fee_rules` at `ctxC4`: non-null results on both lists. -/
theorem evaluate_at_ctxC4 :
    evaluate_fee_rules ctxC4 =
      (some ⟨"F3_ema_sink_guard", 8, 10, 70, false, none⟩,
       some ⟨"F6_inbound_fee_decay", 0, 10, 60, false, some 0⟩) := by
  have hout : outboundCandidates ctxC4 =
      [⟨"F3_ema_sink_guard", 8, 10, 70, false, none⟩] := by
    unfold outboundCandidates
    rw [firing_at_ctxC4]
    norm_num [ctxC4, ctxC2]
  have hin : inboundCandidates ctxC4 =
      [⟨"F6_inbound_fee_decay", 0, 10, 60, false, some 0⟩] := by
    unfold inboundCandidates
    rw [firing_at_ctxC4]
    norm_num [ctxC4, ctxC2]
    exact Option.some_ne_none 0
  unfold evaluate_fee_rules
  rw [hout, hin]
  norm_num [pythonMax]

/-- Claim C4, failing input: at the structurally valid context `ctxC4`
both skip flags are set, yet `evaluate_fee_rules` returns a non-null best
outbound (rule F3) and a non-null best inbound (rule F6) — the flags are
never read inside `rule_engine.py`, they are only honoured later by
`adjust_channel_fees`, while the repository property test
`test_rule_engine_respects_skip_flags` asserts both results must be
`None`. -/
theorem C4_skip_flags_not_honoured :
    ctxC4.skip_outbound_fee_adjust = true ∧ ctxC4.skip_inbound_fee_adjust = true ∧
    (evaluate_fee_rules ctxC4).1 = some ⟨"F3_ema_sink_guard", 8, 10, 70, false, none⟩ ∧
    (evaluate_fee_rules ctxC4).2 = some ⟨"F6_inbound_fee_decay", 0, 10, 60, false, some 0⟩ := by
  refine ⟨rfl, rfl, by rw [evaluate_at_ctxC4], by rw [evaluate_at_ctxC4]⟩

/-- Claim C5, failing input: at time 1000 the peer `secC5` is inside an
active cooldown (`cooldown_until = 2000`), no rule engine evaluation takes
place and no cooldown-override flag is set, yet `adjust_channel_fees`
applies an outbound fee change: it reverts the file fees `(50, 100)` to
the state fee `(25, 50)`, marks the change applied, mirrors the fee and
re-stamps the cooldown.  (The only use of the override flag in the source
reads the nonexistent attribute `override_cooldown`, autotune.py line 655,
and sits in the branch that is unreachable during a cooldown.) -/
theorem C5_change_applied_during_cooldown :
    ((1000 : ℤ) ≤ 2000 ∧ secC5.cooldown_until = some 2000) ∧
    adjust_channel_fees 1000 false false false 50 100 secC5 cdC5 examplePolicy =
      Except.ok c5out ∧
    c5out.outbound_updated = true ∧ c5out.new_fees ≠ c5out.old_fees ∧
    c5out.sec.fee = some 50 ∧ c5out.sec.cooldown_until = some 44140 := by
  refine ⟨⟨by norm_num, rfl⟩, ?_, rfl, by decide, rfl, rfl⟩
  unfold adjust_channel_fees adjustTail
  norm_num [secC5, cdC5, examplePolicy, c5out, pyRound]

/-- Counting a value in a `filterMap` image equals counting the preimages
that map onto it. -/
theorem count_filterMap_eq {α β : Type} [DecidableEq β] (f : α → Option β)
    (l : List α) (b : β) :
    (l.filterMap f).count b = (l.filter (fun a => decide (f a = some b))).length := by
  induction l with
  | nil => rfl
  | cons x xs ih =>
    cases hx : f x with
    | none => simp [List.filterMap_cons, hx, ih, List.filter_cons]
    | some y =>
      by_cases hy : y = b
      · subst hy
        simp [List.filterMap_cons, hx, List.filter_cons, List.count_cons, ih]
      · simp [List.filterMap_cons, hx, List.filter_cons, List.count_cons, hy, ih,
          Option.some_inj]

/-- Replacing the value stored under one key leaves all keys unchanged. -/
theorem pendingKeys_map_replace (p : Pending) (k : ℤ × ℤ) (v : ℕ × RawEvent) :
    pendingKeys (p.map (fun kv => if kv.1 = k then (k, v) else kv)) = pendingKeys p := by
  unfold pendingKeys
  rw [List.map_map]
  apply List.map_congr_left
  intro kv _
  by_cases h : kv.1 = k <;> simp [h]

/-- The replacement map is the identity when the key is absent. -/
theorem map_replace_id {p : Pending} {k : ℤ × ℤ} (v : ℕ × RawEvent)
    (h : k ∉ pendingKeys p) :
    p.map (fun kv => if kv.1 = k then (k, v) else kv) = p := by
  rw [show p.map (fun kv => if kv.1 = k then (k, v) else kv) = p.map id by
    apply List.map_congr_left
    intro kv hkv
    have : kv.1 ≠ k := fun he => h (he ▸ List.mem_map_of_mem (fun x => x.1) hkv)
    simp [this]]
  exact List.map_id p

/-- A filter whose predicate ignores keyless entries is the identity when
the filtered key is absent. -/
theorem filter_ne_key_id {p : Pending} {k : ℤ × ℤ} (h : k ∉ pendingKeys p) :
    p.filter (fun kv => !(kv.1 = k : Bool)) = p := by
  apply List.filter_eq_self.mpr
  intro kv hkv
  have : kv.1 ≠ k := fun he => h (he ▸ List.mem_map_of_mem (fun x => x.1) hkv)
  simp [this]

/-- A unique pending entry determines the `pop` lookup. -/
theorem pendAt_lookup {p : Pending} {k : ℤ × ℤ} {v : ℕ × RawEvent}
    (h : pendAt p k v) : pendLookup p k = some v := by
  obtain ⟨p1, p2, rfl, h1, _⟩ := h
  unfold pendLookup
  rw [List.find?_append]
  have hnone : p1.find? (fun kv => (kv.1 = k : Bool)) = none := by
    apply List.find?_eq_none.mpr
    intro kv hkv
    have : kv.1 ≠ k := fun he => h1 (he ▸ List.mem_map_of_mem (fun x => x.1) hkv)
    simp [this]
  rw [hnone]
  simp [List.find?_cons_of_pos]

/-- Inserting under an absent key appends. -/
theorem pendInsert_absent {p : Pending} {k : ℤ × ℤ} (v : ℕ × RawEvent)
    (h : k ∉ pendingKeys p) : pendInsert p k v = p ++ [(k, v)] := by
  have hany : ¬ (p.any (fun kv => (kv.1 = k : Bool)) = true) := by
    rw [List.any_eq_true]
    rintro ⟨kv, hkv, he⟩
    exact h ((of_decide_eq_true he) ▸ List.mem_map_of_mem (fun x => x.1) hkv)
  unfold pendInsert
  rw [if_neg hany]

/-- Inserting under a present key of a key-unique map replaces that entry
in place. -/
theorem pendInsert_present {p : Pending} {k : ℤ × ℤ} (v : ℕ × RawEvent)
    (hk : (pendingKeys p).Nodup) (h : k ∈ pendingKeys p) :
    ∃ p1 w p2, p = p1 ++ (k, w) :: p2 ∧ k ∉ pendingKeys p1 ∧ k ∉ pendingKeys p2 ∧
      pendInsert p k v = p1 ++ (k, v) :: p2 := by
  induction p with
  | nil => simp [pendingKeys] at h
  | cons hd tl ih =>
    have hkeys : pendingKeys (hd :: tl) = hd.1 :: pendingKeys tl := rfl
    rw [hkeys] at hk h
    by_cases hhd : hd.1 = k
    · have htl : k ∉ pendingKeys tl := by
        have := (List.nodup_cons.mp hk).1
        rw [hhd] at this
        exact this
      refine ⟨[], hd.2, tl, ?_, by simp [pendingKeys], htl, ?_⟩
      · simp [← hhd]
      · unfold pendInsert
        rw [if_pos]
        · simp only [List.map_cons, if_pos hhd]
          rw [map_replace_id v htl]
          rfl
        · simp only [List.any_cons]
          rw [decide_eq_true hhd]
          simp
    · have hmem : k ∈ pendingKeys tl := by
        rcases List.mem_cons.mp h with he | htl2
        · exact absurd he.symm hhd
        · exact htl2
      obtain ⟨p1, w, p2, heq, hp1, hp2, hins⟩ := ih (List.nodup_cons.mp hk).2 hmem
      refine ⟨hd :: p1, w, p2, by rw [heq]; rfl, ?_, hp2, ?_⟩
      · intro hmem2
        rcases List.mem_cons.mp hmem2 with he | h1
        · exact hhd he.symm
        · exact hp1 h1
      · unfold pendInsert at hins ⊢
        have hany : (hd :: tl).any (fun kv => (kv.1 = k : Bool)) = true := by
          simp only [List.any_eq_true]
          refine ⟨(k, w), ?_, by simp⟩
          exact List.mem_cons_of_mem hd
            (by rw [heq]; exact List.mem_append_right _ (List.mem_cons_self _ _))
        have hanytl : tl.any (fun kv => (kv.1 = k : Bool)) = true := by
          simp only [List.any_eq_true]
          refine ⟨(k, w), ?_, by simp⟩
          rw [heq]
          exact List.mem_append_right _ (List.mem_cons_self _ _)
        rw [if_pos hany]
        rw [if_pos hanytl] at hins
        simp only [List.map_cons, if_neg hhd]
        rw [hins]
        rfl

/-- Inserting a fresh entry establishes key-unique presence. -/
theorem pendInsert_pendAt {p : Pending} {k : ℤ × ℤ} (v : ℕ × RawEvent)
    (hk : (pendingKeys p).Nodup) : pendAt (pendInsert p k v) k v := by
  by_cases h : k ∈ pendingKeys p
  · obtain ⟨p1, w, p2, _, hp1, hp2, hins⟩ := pendInsert_present v hk h
    exact ⟨p1, p2, hins, hp1, hp2⟩
  · exact ⟨p, [], pendInsert_absent v h, h, by simp [pendingKeys]⟩

/-- Erasing a key absent from both sides of a decomposition removes
exactly the middle entry. -/
theorem pendErase_of_decomp {p1 p2 : Pending} {k : ℤ × ℤ} (v : ℕ × RawEvent)
    (h1 : k ∉ pendingKeys p1) (h2 : k ∉ pendingKeys p2) :
    pendErase (p1 ++ (k, v) :: p2) k = p1 ++ p2 := by
  unfold pendErase
  rw [List.filter_append, List.filter_cons]
  rw [filter_ne_key_id h1, filter_ne_key_id h2]
  simp

/-- `pendingIdxM` over an append. -/
theorem pendingIdxM_append (p q : Pending) :
    pendingIdxM (p ++ q) = pendingIdxM p + pendingIdxM q := by
  unfold pendingIdxM
  rw [List.map_append]
  exact (Multiset.coe_add _ _).symm

/-- `pendingIdxM` over a cons. -/
theorem pendingIdxM_cons (kv : (ℤ × ℤ) × (ℕ × RawEvent)) (p : Pending) :
    pendingIdxM (kv :: p) = kv.2.1 ::ₘ pendingIdxM p := rfl

/-- Inserting keeps the pending keys without duplicates. -/
theorem pendInsert_keys_nodup {p : Pending} {k : ℤ × ℤ} (v : ℕ × RawEvent)
    (hk : (pendingKeys p).Nodup) : (pendingKeys (pendInsert p k v)).Nodup := by
  by_cases hmem : k ∈ pendingKeys p
  · obtain ⟨p1, w, p2, heq, _, _, hins⟩ := pendInsert_present v hk hmem
    rw [hins]
    have : pendingKeys (p1 ++ (k, v) :: p2) = pendingKeys (p1 ++ (k, w) :: p2) := by
      unfold pendingKeys
      simp [List.map_append]
    rw [this, ← heq]
    exact hk
  · rw [pendInsert_absent v hmem]
    unfold pendingKeys
    rw [List.map_append]
    refine List.Nodup.append hk (by simp) ?_
    intro a ha hb
    simp at hb
    exact hmem (hb ▸ ha)

/-- The first phase of a correlator step keeps keys duplicate-free. -/
theorem corrPhase1_keys_nodup {p : Pending} (hk : (pendingKeys p).Nodup)
    (i : ℕ) (e : RawEvent) : (pendingKeys (corrPhase1 p i e).1).Nodup := by
  unfold corrPhase1
  by_cases hf : isForwardAttempt e
  · rw [if_pos hf]
    exact pendInsert_keys_nodup _ hk
  · rw [if_neg hf]
    by_cases ht : isTerminalEvent e
    · rw [if_pos ht]
      cases hl : pendLookup p e.key with
      | some v =>
        simp only
        have hsub : List.Sublist (pendingKeys (pendErase p e.key)) (pendingKeys p) :=
          (List.filter_sublist p).map _
        exact hk.sublist hsub
      | none =>
        simp only
        cases e.has_link_fail_event <;> simpa using hk
    · rw [if_neg ht]
      exact hk

/-- A full correlator step keeps keys duplicate-free. -/
theorem corrStep_keys_nodup {p : Pending} (hk : (pendingKeys p).Nodup)
    (i : ℕ) (e : RawEvent) (now x : ℤ) :
    (pendingKeys (corrStep p i e now x).1).Nodup := by
  unfold corrStep corrSweep
  simp only
  have h1 := corrPhase1_keys_nodup hk i e
  have hsub : List.Sublist (pendingKeys ((corrPhase1 p i e).1.filter
      (fun kv => !(now - kv.2.2.event_time > x : Bool))))
      (pendingKeys (corrPhase1 p i e).1) :=
    (List.filter_sublist _).map _
  exact h1.sublist hsub

/-- The expiry sweep only redistributes pending attempts: the synthetic
records it emits and the kept entries add up to the previous pending map. -/
theorem corrSweep_idx (p : Pending) (now x : ℤ) :
    (attemptRefs (corrSweep p now x).2 : Multiset ℕ) +
      pendingIdxM (corrSweep p now x).1 = pendingIdxM p := by
  unfold corrSweep attemptRefs pendingIdxM
  simp only
  rw [List.filterMap_map]
  have hcomp : (Record.attemptRef ∘ fun kv : (ℤ × ℤ) × (ℕ × RawEvent) =>
      Record.synth kv.2.1 kv.2.2 kv.2.2.event_time) =
      fun kv : (ℤ × ℤ) × (ℕ × RawEvent) => some kv.2.1 := rfl
  rw [hcomp]
  have hmap : List.filterMap (fun kv : (ℤ × ℤ) × (ℕ × RawEvent) => some kv.2.1) =
      List.map (fun kv : (ℤ × ℤ) × (ℕ × RawEvent) => kv.2.1) := by
    funext l
    induction l with
    | nil => rfl
    | cons a as ih => simp [List.filterMap_cons, ih]
  rw [hmap]
  have hperm : List.Perm ((p.filter (fun kv => (now - kv.2.2.event_time > x : Bool))) ++
      (p.filter (fun kv => !(now - kv.2.2.event_time > x : Bool)))) p :=
    List.filter_append_perm _ p
  have := hperm.map (fun kv : (ℤ × ℤ) × (ℕ × RawEvent) => kv.2.1)
  rw [List.map_append] at this
  calc (↑(List.map (fun kv : (ℤ × ℤ) × (ℕ × RawEvent) => kv.2.1)
          (p.filter (fun kv => (now - kv.2.2.event_time > x : Bool)))) : Multiset ℕ) +
        ↑(List.map (fun kv : (ℤ × ℤ) × (ℕ × RawEvent) => kv.2.1)
          (p.filter (fun kv => !(now - kv.2.2.event_time > x : Bool))))
      = ↑(List.map (fun kv : (ℤ × ℤ) × (ℕ × RawEvent) => kv.2.1)
          (p.filter (fun kv => (now - kv.2.2.event_time > x : Bool))) ++
         List.map (fun kv : (ℤ × ℤ) × (ℕ × RawEvent) => kv.2.1)
          (p.filter (fun kv => !(now - kv.2.2.event_time > x : Bool)))) := by
        rw [Multiset.coe_add]
    _ = ↑(List.map (fun kv : (ℤ × ℤ) × (ℕ × RawEvent) => kv.2.1) p) :=
        Multiset.coe_eq_coe.mpr this

/-- The match/buffer phase consumes at most the pending attempts plus the
fresh stream position `i`. -/
theorem corrPhase1_idx_le {p : Pending} (hk : (pendingKeys p).Nodup)
    (i : ℕ) (e : RawEvent) :
    (attemptRefs (corrPhase1 p i e).2 : Multiset ℕ) +
      pendingIdxM (corrPhase1 p i e).1 ≤ pendingIdxM p + {i} := by
  unfold corrPhase1
  by_cases hf : isForwardAttempt e
  · rw [if_pos hf]
    simp only [attemptRefs, List.filterMap_nil]
    by_cases hmem : e.key ∈ pendingKeys p
    · obtain ⟨p1, w, p2, heq, _, _, hins⟩ := pendInsert_present (i, e) hk hmem
      rw [hins, heq]
      rw [pendingIdxM_append, pendingIdxM_append, pendingIdxM_cons, pendingIdxM_cons]
      simp only [Multiset.coe_nil, zero_add]
      calc pendingIdxM p1 + (i ::ₘ pendingIdxM p2)
          ≤ pendingIdxM p1 + (i ::ₘ pendingIdxM p2) + {w.1} := Multiset.le_add_right _ _
        _ = pendingIdxM p1 + (w.1 ::ₘ pendingIdxM p2) + {i} := by
            simp only [← Multiset.singleton_add]
            abel
    · rw [pendInsert_absent _ hmem, pendingIdxM_append, pendingIdxM_cons]
      simp only [Multiset.coe_nil, zero_add]
      rw [show pendingIdxM [] = 0 from rfl, Multiset.cons_zero]
  · rw [if_neg hf]
    by_cases ht : isTerminalEvent e
    · rw [if_pos ht]
      cases hl : pendLookup p e.key with
      | some v =>
        simp only
        have hdec : ∃ p1 p2, p = p1 ++ (e.key, v) :: p2 ∧ e.key ∉ pendingKeys p1 ∧
            e.key ∉ pendingKeys p2 := by
          have hmem : e.key ∈ pendingKeys p := by
            unfold pendLookup at hl
            cases hfind : p.find? (fun kv => (kv.1 = e.key : Bool)) with
            | none => rw [hfind] at hl; simp at hl
            | some kv =>
              rw [hfind] at hl
              have hkv := List.find?_some hfind
              have hmem2 := List.mem_of_find?_eq_some hfind
              exact (of_decide_eq_true hkv) ▸
                List.mem_map_of_mem (fun x => x.1) hmem2
          obtain ⟨p1, w, p2, heq, hp1, hp2, _⟩ := pendInsert_present v hk hmem
          refine ⟨p1, p2, ?_, hp1, hp2⟩
          have hv : w = v := by
            have := pendAt_lookup ⟨p1, p2, heq, hp1, hp2⟩
            rw [this] at hl
            exact Option.some_inj.mp hl
          rw [heq, hv]
        obtain ⟨p1, p2, heq, hp1, hp2⟩ := hdec
        rw [heq, pendErase_of_decomp v hp1 hp2]
        simp only [attemptRefs, List.filterMap_cons, Record.attemptRef,
          List.filterMap_nil]
        rw [pendingIdxM_append, pendingIdxM_append, pendingIdxM_cons]
        calc (↑[v.1] : Multiset ℕ) + (pendingIdxM p1 + pendingIdxM p2)
            = pendingIdxM p1 + (v.1 ::ₘ pendingIdxM p2) := by
              simp only [← Multiset.singleton_add, Multiset.coe_singleton]
              abel
          _ ≤ pendingIdxM p1 + (v.1 ::ₘ pendingIdxM p2) + {i} := Multiset.le_add_right _ _
      | none =>
        simp only
        cases e.has_link_fail_event
        · simp only [Bool.false_eq_true, if_false, attemptRefs, List.filterMap_nil]
          exact le_add_right (le_refl _)
        · simp only [if_true, attemptRefs, List.filterMap_cons, Record.attemptRef,
            List.filterMap_nil]
          exact le_add_right (le_refl _)
    · rw [if_neg ht]
      simp only [attemptRefs, List.filterMap_nil]
      exact le_add_right (le_refl _)

/-- A full correlator step consumes at most the pending attempts plus the
fresh position. -/
theorem corrStep_idx_le {p : Pending} (hk : (pendingKeys p).Nodup)
    (i : ℕ) (e : RawEvent) (now x : ℤ) :
    (attemptRefs (corrStep p i e now x).2 : Multiset ℕ) +
      pendingIdxM (corrStep p i e now x).1 ≤ pendingIdxM p + {i} := by
  unfold corrStep
  simp only
  have h1 := corrPhase1_idx_le hk i e
  have h2 := corrSweep_idx (corrPhase1 p i e).1 now x
  have hsplit : attemptRefs ((corrPhase1 p i e).2 ++
      (corrSweep (corrPhase1 p i e).1 now x).2) =
      attemptRefs (corrPhase1 p i e).2 ++
        attemptRefs (corrSweep (corrPhase1 p i e).1 now x).2 := by
    unfold attemptRefs
    rw [List.filterMap_append]
  rw [hsplit]
  rw [← Multiset.coe_add]
  calc (attemptRefs (corrPhase1 p i e).2 : Multiset ℕ) +
        (attemptRefs (corrSweep (corrPhase1 p i e).1 now x).2 : Multiset ℕ) +
        pendingIdxM (corrSweep (corrPhase1 p i e).1 now x).1
      = (attemptRefs (corrPhase1 p i e).2 : Multiset ℕ) +
        ((attemptRefs (corrSweep (corrPhase1 p i e).1 now x).2 : Multiset ℕ) +
          pendingIdxM (corrSweep (corrPhase1 p i e).1 now x).1) := by
        rw [add_assoc]
    _ = (attemptRefs (corrPhase1 p i e).2 : Multiset ℕ) +
        pendingIdxM (corrPhase1 p i e).1 := by rw [h2]
    _ ≤ pendingIdxM p + {i} := h1

/-- A correlator run keeps the pending keys duplicate-free. -/
theorem corrRun_keys_nodup (x : ℤ) (events : List (RawEvent × ℤ)) :
    ∀ (p : Pending) (i : ℕ), (pendingKeys p).Nodup →
      (pendingKeys (corrRun x p i events).1).Nodup := by
  induction events with
  | nil =>
    intro p i hk
    simpa [corrRun] using hk
  | cons en rest ih =>
    intro p i hk
    obtain ⟨e, now⟩ := en
    unfold corrRun
    simp only
    exact ih _ (i + 1) (corrStep_keys_nodup hk i e now x)

/-- A correlator run emits, together with what stays pending, at most one
resolution per buffered attempt and per stream position it processed. -/
theorem corrRun_idx_le (x : ℤ) (events : List (RawEvent × ℤ)) :
    ∀ (p : Pending) (i : ℕ), (pendingKeys p).Nodup →
      (attemptRefs (corrRun x p i events).2 : Multiset ℕ) +
        pendingIdxM (corrRun x p i events).1 ≤
        pendingIdxM p + (List.range' i events.length : Multiset ℕ) := by
  induction events with
  | nil =>
    intro p i hk
    simp [corrRun, attemptRefs]
  | cons en rest ih =>
    intro p i hk
    obtain ⟨e, now⟩ := en
    have hstep := corrStep_idx_le hk i e now x
    have hrest := ih (corrStep p i e now x).1 (i + 1) (corrStep_keys_nodup hk i e now x)
    unfold corrRun
    simp only [List.length_cons]
    have hsplit : attemptRefs ((corrStep p i e now x).2 ++
        (corrRun x (corrStep p i e now x).1 (i + 1) rest).2) =
        attemptRefs (corrStep p i e now x).2 ++
          attemptRefs (corrRun x (corrStep p i e now x).1 (i + 1) rest).2 := by
      unfold attemptRefs
      rw [List.filterMap_append]
    rw [hsplit, ← Multiset.coe_add]
    have hlen : (List.range' i (rest.length + 1) : Multiset ℕ) =
        {i} + (List.range' (i + 1) rest.length : Multiset ℕ) := by
      rw [show List.range' i (rest.length + 1) = i :: List.range' (i + 1) rest.length
        from rfl]
      rw [← Multiset.cons_coe, ← Multiset.singleton_add]
    calc (attemptRefs (corrStep p i e now x).2 : Multiset ℕ) +
          (attemptRefs (corrRun x (corrStep p i e now x).1 (i + 1) rest).2 : Multiset ℕ) +
          pendingIdxM (corrRun x (corrStep p i e now x).1 (i + 1) rest).1
        = (attemptRefs (corrStep p i e now x).2 : Multiset ℕ) +
          ((attemptRefs (corrRun x (corrStep p i e now x).1 (i + 1) rest).2 : Multiset ℕ) +
            pendingIdxM (corrRun x (corrStep p i e now x).1 (i + 1) rest).1) := by
          rw [add_assoc]
      _ ≤ (attemptRefs (corrStep p i e now x).2 : Multiset ℕ) +
          (pendingIdxM (corrStep p i e now x).1 +
            (List.range' (i + 1) rest.length : Multiset ℕ)) := add_le_add_left hrest _
      _ = (attemptRefs (corrStep p i e now x).2 : Multiset ℕ) +
            pendingIdxM (corrStep p i e now x).1 +
          (List.range' (i + 1) rest.length : Multiset ℕ) := by rw [add_assoc]
      _ ≤ pendingIdxM p + {i} + (List.range' (i + 1) rest.length : Multiset ℕ) :=
          add_le_add_right hstep _
      _ = pendingIdxM p + (List.range' i (rest.length + 1) : Multiset ℕ) := by
          rw [hlen]
          exact add_assoc _ _ _

/-- No stream position is ever resolved by two records of a correlator run
from an empty pending map. -/
theorem matchBuffer_attemptRefs_nodup (x : ℤ) (events : List (RawEvent × ℤ)) :
    (attemptRefs (match_and_buffer_events x events).2).Nodup := by
  have h := corrRun_idx_le x events [] 0 (by simp [pendingKeys])
  rw [show pendingIdxM [] = 0 from rfl, zero_add] at h
  have h2 : (attemptRefs (corrRun x [] 0 events).2 : Multiset ℕ) ≤
      (List.range' 0 events.length : Multiset ℕ) :=
    le_trans (Multiset.le_add_right _ _) h
  have h3 : (attemptRefs (corrRun x [] 0 events).2).Nodup := by
    rw [← Multiset.coe_nodup]
    exact Multiset.nodup_of_le h2
      (Multiset.coe_nodup.mpr (List.nodup_range' _ _))
  exact h3

/-- Replacing the value stored under a different key does not change a
lookup. -/
theorem pendLookup_replace_ne (ek : ℤ × ℤ) (w : ℕ × RawEvent) (k : ℤ × ℤ)
    (hne : ek ≠ k) (p : Pending) :
    pendLookup (p.map (fun kv => if kv.1 = ek then (ek, w) else kv)) k =
      pendLookup p k := by
  induction p with
  | nil => rfl
  | cons hd tl ih =>
    rw [List.map_cons]
    by_cases hhd : hd.1 = ek
    · rw [if_pos hhd]
      unfold pendLookup
      rw [List.find?_cons_of_neg _ (by simp [hne]),
        List.find?_cons_of_neg _ (by simp [hhd, hne])]
      exact ih
    · rw [if_neg hhd]
      unfold pendLookup
      by_cases hp : hd.1 = k
      · rw [List.find?_cons_of_pos _ (by simp [hp]),
          List.find?_cons_of_pos _ (by simp [hp])]
      · rw [List.find?_cons_of_neg _ (by simp [hp]),
          List.find?_cons_of_neg _ (by simp [hp])]
        exact ih

/-- Appending an entry under a different key does not change a lookup. -/
theorem pendLookup_append_single_ne (p : Pending) (ek : ℤ × ℤ) (v : ℕ × RawEvent)
    (k : ℤ × ℤ) (hne : ek ≠ k) :
    pendLookup (p ++ [(ek, v)]) k = pendLookup p k := by
  induction p with
  | nil =>
    unfold pendLookup
    rw [List.nil_append, List.find?_cons_of_neg _ (by simp [hne])]
  | cons hd tl ih =>
    rw [List.cons_append]
    unfold pendLookup
    by_cases hp : hd.1 = k
    · rw [List.find?_cons_of_pos _ (by simp [hp]),
        List.find?_cons_of_pos _ (by simp [hp])]
    · rw [List.find?_cons_of_neg _ (by simp [hp]),
        List.find?_cons_of_neg _ (by simp [hp])]
      exact ih

/-- Erasing a different key does not change a lookup. -/
theorem pendLookup_erase_ne (p : Pending) (ek k : ℤ × ℤ) (hne : ek ≠ k) :
    pendLookup (pendErase p ek) k = pendLookup p k := by
  induction p with
  | nil => rfl
  | cons hd tl ih =>
    unfold pendErase at ih ⊢
    rw [List.filter_cons]
    by_cases hhd : hd.1 = ek
    · rw [if_neg (by simp [hhd])]
      rw [ih]
      unfold pendLookup
      rw [List.find?_cons_of_neg _ (by simp [hhd, hne])]
    · rw [if_pos (by simp [hhd])]
      unfold pendLookup
      by_cases hp : hd.1 = k
      · rw [List.find?_cons_of_pos _ (by simp [hp]),
          List.find?_cons_of_pos _ (by simp [hp])]
      · rw [List.find?_cons_of_neg _ (by simp [hp]),
          List.find?_cons_of_neg _ (by simp [hp])]
        exact ih

/-- The match/buffer phase never touches entries stored under a key other
than the incoming event's. -/
theorem corrPhase1_lookup_ne (p : Pending) (i : ℕ) (e : RawEvent) {k : ℤ × ℤ}
    (hne : e.key ≠ k) :
    pendLookup (corrPhase1 p i e).1 k = pendLookup p k := by
  unfold corrPhase1
  by_cases hf : isForwardAttempt e
  · rw [if_pos hf]
    unfold pendInsert
    by_cases hany : p.any (fun kv => (kv.1 = e.key : Bool)) = true
    · rw [if_pos hany]
      exact pendLookup_replace_ne e.key (i, e) k hne p
    · rw [if_neg hany]
      exact pendLookup_append_single_ne p e.key (i, e) k hne
  · rw [if_neg hf]
    by_cases ht : isTerminalEvent e
    · rw [if_pos ht]
      cases hl : pendLookup p e.key with
      | some v =>
        simp only
        exact pendLookup_erase_ne p e.key k hne
      | none =>
        simp only
        cases e.has_link_fail_event <;> rfl
    · rw [if_neg ht]

/-- Under duplicate-free keys a successful lookup yields the unique-entry
decomposition. -/
theorem pendAt_of_lookup {p : Pending} {k : ℤ × ℤ} {v : ℕ × RawEvent}
    (hk : (pendingKeys p).Nodup) (hl : pendLookup p k = some v) : pendAt p k v := by
  have hmem : k ∈ pendingKeys p := by
    unfold pendLookup at hl
    cases hfind : p.find? (fun kv => (kv.1 = k : Bool)) with
    | none => rw [hfind] at hl; simp at hl
    | some kv =>
      have hkv := List.find?_some hfind
      have hmem2 := List.mem_of_find?_eq_some hfind
      exact (of_decide_eq_true hkv) ▸ List.mem_map_of_mem (fun x => x.1) hmem2
  obtain ⟨p1, w, p2, heq, hp1, hp2, _⟩ := pendInsert_present v hk hmem
  have hv : w = v := by
    have h2 := pendAt_lookup ⟨p1, p2, heq, hp1, hp2⟩
    rw [h2] at hl
    exact Option.some_inj.mp hl
  exact ⟨p1, p2, by rw [heq, hv], hp1, hp2⟩

/-- Erasing a key removes it from the pending keys. -/
theorem pendErase_key_not_mem (p : Pending) (k : ℤ × ℤ) :
    k ∉ pendingKeys (pendErase p k) := by
  intro h
  unfold pendingKeys pendErase at h
  obtain ⟨kv, hkv, hkey⟩ := List.mem_map.mp h
  have hf := List.of_mem_filter hkv
  simp [hkey] at hf

/-- A terminal event whose key sits in the pending map pops that attempt:
the step emits the correlated record first, and the key leaves the map. -/
theorem corrStep_terminal_pop {p : Pending} {k : ℤ × ℤ} {j : ℕ} {fwd : RawEvent}
    (hAt : pendAt p k (j, fwd)) (i : ℕ) {e : RawEvent} (now x : ℤ)
    (hnf : ¬isForwardAttempt e) (ht : isTerminalEvent e) (hkey : e.key = k) :
    (corrStep p i e now x).2 =
      Record.matched j fwd e e.event_time :: (corrSweep (pendErase p k) now x).2 ∧
    k ∉ pendingKeys (corrStep p i e now x).1 := by
  have hl : pendLookup p k = some (j, fwd) := pendAt_lookup hAt
  have hphase : corrPhase1 p i e =
      (pendErase p k, [Record.matched j fwd e e.event_time]) := by
    unfold corrPhase1
    rw [if_neg hnf, if_pos ht, hkey, hl]
  constructor
  · unfold corrStep
    rw [hphase]
    rfl
  · unfold corrStep
    rw [hphase]
    have hsub : List.Sublist (pendingKeys (corrSweep (pendErase p k) now x).1)
        (pendingKeys (pendErase p k)) := by
      unfold corrSweep
      exact (List.filter_sublist _).map _
    intro hmem
    exact pendErase_key_not_mem p k (hsub.subset hmem)

/-- A pending attempt older than the expiry window is emitted as a
synthetic success (timestamped with the attempt time) and evicted, for any
incoming event of a different key. -/
theorem corrStep_expire_evict {p : Pending} {k : ℤ × ℤ} {j : ℕ} {fwd : RawEvent}
    (hk : (pendingKeys p).Nodup) (hAt : pendAt p k (j, fwd)) (i : ℕ) {e : RawEvent}
    {now x : ℤ} (hne : e.key ≠ k) (hexp : now - fwd.event_time > x) :
    Record.synth j fwd fwd.event_time ∈ (corrStep p i e now x).2 ∧
      k ∉ pendingKeys (corrStep p i e now x).1 := by
  have hq : pendAt (corrPhase1 p i e).1 k (j, fwd) :=
    pendAt_of_lookup (corrPhase1_keys_nodup hk i e)
      (by rw [corrPhase1_lookup_ne p i e hne]; exact pendAt_lookup hAt)
  obtain ⟨q1, q2, hdec, hq1, hq2⟩ := hq
  constructor
  · unfold corrStep
    apply List.mem_append_right
    show Record.synth j fwd fwd.event_time ∈
      (List.filter (fun kv => (now - kv.2.2.event_time > x : Bool))
        (corrPhase1 p i e).1).map
        (fun kv => Record.synth kv.2.1 kv.2.2 kv.2.2.event_time)
    rw [hdec, List.filter_append, List.filter_cons, if_pos (decide_eq_true hexp)]
    rw [List.map_append, List.map_cons]
    exact List.mem_append_right _ (List.mem_cons_self _ _)
  · unfold corrStep
    show k ∉ pendingKeys
      (List.filter (fun kv => !(now - kv.2.2.event_time > x : Bool)) (corrPhase1 p i e).1)
    rw [hdec, List.filter_append, List.filter_cons,
      if_neg (show ¬((!(now - ((k, (j, fwd)) :
          (ℤ × ℤ) × (ℕ × RawEvent)).2.2.event_time > x : Bool)) = true)
        by simp [hexp])]
    unfold pendingKeys
    rw [List.map_append]
    intro hmem
    rcases List.mem_append.mp hmem with h1 | h2
    · exact hq1 (((List.filter_sublist _).map _).subset h1)
    · exact hq2 (((List.filter_sublist _).map _).subset h2)

/-- **C3** (amended): in the HTLC correlator (i) no buffered forward
attempt ever yields two records: over any event stream the attempt
positions resolved by the emitted records are duplicate-free; (ii) a
terminal event matching a pending attempt pops it, emitting exactly one
correlated record (first in that step's output) and evicting the key;
(iii) a pending attempt older than the expiry window is emitted as exactly
one synthetic success (timestamped with the attempt time) and evicted; and
(iv) the stats aggregator classifies a matched record local exactly when
the attempt side carries a link-failure annotation and remote exactly when
it does not and the outcome side carries a forward-failure annotation - so
it counts the record as a fail exactly when one of the two annotations is
present, and otherwise as a success even though the record correlates a
terminal failure. -/
theorem C3_attempt_resolution :
    (∀ (x : ℤ) (events : List (RawEvent × ℤ)),
        (attemptRefs (match_and_buffer_events x events).2).Nodup) ∧
    (∀ (p : Pending) (k : ℤ × ℤ) (j : ℕ) (fwd : RawEvent) (i : ℕ) (e : RawEvent)
        (now x : ℤ), pendAt p k (j, fwd) → ¬isForwardAttempt e →
        isTerminalEvent e → e.key = k →
        (corrStep p i e now x).2 =
          Record.matched j fwd e e.event_time ::
            (corrSweep (pendErase p k) now x).2 ∧
          k ∉ pendingKeys (corrStep p i e now x).1) ∧
    (∀ (p : Pending) (k : ℤ × ℤ) (j : ℕ) (fwd : RawEvent) (i : ℕ) (e : RawEvent)
        (now x : ℤ), (pendingKeys p).Nodup → pendAt p k (j, fwd) → e.key ≠ k →
        now - fwd.event_time > x →
        Record.synth j fwd fwd.event_time ∈ (corrStep p i e now x).2 ∧
          k ∉ pendingKeys (corrStep p i e now x).1) ∧
    (∀ (j : ℕ) (fwd r : RawEvent) (t now win : ℤ), t ≥ now - win →
        (compute_peer_htlc_stats [Record.matched j fwd r t] now win).total = 1 ∧
        (compute_peer_htlc_stats [Record.matched j fwd r t] now win).local_fails =
          (if fwd.has_link_fail_event then 1 else 0) ∧
        (compute_peer_htlc_stats [Record.matched j fwd r t] now win).remote_fails =
          (if !fwd.has_link_fail_event && r.has_forward_fail_event then 1 else 0) ∧
        ((compute_peer_htlc_stats [Record.matched j fwd r t] now win).fails = 1 ↔
          (fwd.has_link_fail_event || r.has_forward_fail_event) = true)) := by
  refine ⟨matchBuffer_attemptRefs_nodup,
    fun p k j fwd i e now x hAt hnf ht hkey =>
      corrStep_terminal_pop hAt i now x hnf ht hkey,
    fun p k j fwd i e now x hk hAt hne hexp =>
      corrStep_expire_evict hk hAt i hne hexp,
    ?_⟩
  intro j fwd r t now win hwin
  have hdec : decide (Record.ts (Record.matched j fwd r t) ≥ now - win) = true :=
    decide_eq_true hwin
  unfold compute_peer_htlc_stats
  simp only [List.filter_cons, List.filter_nil, hdec, if_true]
  cases hl : fwd.has_link_fail_event <;> cases hr : r.has_forward_fail_event <;>
    simp [Record.fwdEvent, Record.resultHasForwardFail, hl, hr]

/-- Claim C3 counterexample: the stream `exStreamC3` is a forward attempt
followed within the expiry window by a matching terminal event that
carries only a link-failure annotation. The correlator emits exactly one
matched record for it, yet the stats aggregator counts that record as a
success and not as a fail, because it reads the link-failure annotation
from the attempt side (the buffered FORWARD event) where it never
appears - the correlated fail record is not "classified local or
remote". -/
theorem C3_counterexample :
    (match_and_buffer_events 900 exStreamC3).2 =
        [Record.matched 0 evFwd evLinkFail 101] ∧
    evFwd.has_link_fail_event = false ∧
    evLinkFail.has_link_fail_event = true ∧
    (compute_peer_htlc_stats (match_and_buffer_events 900 exStreamC3).2
        101 3600).fails = 0 ∧
    (compute_peer_htlc_stats (match_and_buffer_events 900 exStreamC3).2
        101 3600).successes = 1 := by
  refine ⟨?_, rfl, rfl, ?_, ?_⟩ <;> decide

/-- Witness for C3: the amended resolution facts evaluated at concrete
streams built from `evFwd`, `evFwdFail`, `evOther`. -/
theorem C3_attempt_resolution_witness :
    ((corrStep [((7, 1), (0, evFwd))] 1 evFwdFail 102 900).2 =
        Record.matched 0 evFwd evFwdFail 102 ::
          (corrSweep (pendErase [((7, 1), (0, evFwd))] (7, 1)) 102 900).2 ∧
      (7, 1) ∉ pendingKeys (corrStep [((7, 1), (0, evFwd))] 1 evFwdFail 102 900).1) ∧
    (Record.synth 0 evFwd evFwd.event_time ∈
        (corrStep [((7, 1), (0, evFwd))] 1 evOther 2000 900).2 ∧
      (7, 1) ∉ pendingKeys (corrStep [((7, 1), (0, evFwd))] 1 evOther 2000 900).1) ∧
    (compute_peer_htlc_stats [Record.matched 0 evFwd evFwdFail 102] 102 3600).fails = 1 ∧
    (attemptRefs (match_and_buffer_events 900 [(evFwd, 100), (evFwdFail, 102)]).2).Nodup := by
  refine ⟨C3_attempt_resolution.2.1 [((7, 1), (0, evFwd))] (7, 1) 0 evFwd 1 evFwdFail
      102 900 ⟨[], [], rfl, by decide, by decide⟩ (by decide) (by decide) rfl,
    C3_attempt_resolution.2.2.1 [((7, 1), (0, evFwd))] (7, 1) 0 evFwd 1 evOther
      2000 900 (by decide) ⟨[], [], rfl, by decide, by decide⟩ (by decide) (by decide),
    ?_, C3_attempt_resolution.1 900 [(evFwd, 100), (evFwdFail, 102)]⟩
  exact (C3_attempt_resolution.2.2.2 0 evFwd evFwdFail 102 102 3600
    (by decide)).2.2.2.mpr (by decide)

end LazyLnd
